import Mathlib

/-!
Verification of the video buffer of `estadeo-seq`.

Shallow embedding of `src/LibVideoT.hpp` (`VideoSize`, `Video<T>`) and of
`src/utils.cpp`: the raw-video copy loops (`read_video`, `write_video`) and
the transform files (`save_transforms`, `read_transforms`).

Conventions of the embedding.

* `unsigned` is a natural number below `4294967296 = 2^32`; every unsigned
  arithmetic result is reduced modulo `4294967296`.
* `int` is an integer in `[-2147483648, 2147483648)`; a signed operation whose
  mathematical result leaves that interval is undefined behaviour.
* A function that can trip an `assert`, run into undefined behaviour, or index
  a `std::vector` outside its bounds returns an `Option`; `none` stands for
  "does not return normally".
-/

namespace VideoT

/-! ## Definitions -/

/-- The struct `VideoSize`: four primary fields and four derived products. -/
structure VideoSize where
  width : Nat
  height : Nat
  frames : Nat
  channels : Nat
  wh : Nat
  whc : Nat
  whcf : Nat
  whf : Nat
deriving DecidableEq

/-- The method `VideoSize::update_fields`: the derived products, each computed
in 32-bit unsigned arithmetic from the previous one. -/
def VideoSize.update_fields (s : VideoSize) : VideoSize :=
  let wh := (s.width * s.height) % 4294967296
  let whc := (wh * s.channels) % 4294967296
  let whcf := (whc * s.frames) % 4294967296
  let whf := (wh * s.frames) % 4294967296
  VideoSize.mk s.width s.height s.frames s.channels wh whc whcf whf

/-- The constructor `VideoSize(void)`. -/
def VideoSize.ctorVoid : VideoSize :=
  VideoSize.update_fields (VideoSize.mk 0 0 0 0 0 0 0 0)

/-- The constructor `VideoSize(unsigned w, unsigned h, unsigned f, unsigned c)`. -/
def VideoSize.ctor (w h f c : Nat) : VideoSize :=
  VideoSize.update_fields (VideoSize.mk w h f c 0 0 0 0)

/-- The comparison `VideoSize::operator==`: only the four primary fields. -/
def VideoSize.eqOp (a b : VideoSize) : Bool :=
  a.width == b.width && a.height == b.height &&
    a.channels == b.channels && a.frames == b.frames

/-- The comparison `VideoSize::operator!=`. -/
def VideoSize.neOp (a b : VideoSize) : Bool := !(VideoSize.eqOp a b)

/-- The method `VideoSize::index(x, y, t, c)`: `none` when the assertion
fails, otherwise `t*whc + c*wh + y*width + x` in unsigned arithmetic. -/
def VideoSize.index (s : VideoSize) (x y t c : Nat) : Option Nat :=
  if x < s.width ∧ y < s.height ∧ t < s.frames ∧ c < s.channels then
    some ((t * s.whc + c * s.wh + y * s.width + x) % 4294967296)
  else none

/-- The method `VideoSize::index(x, y, t)` for one-channel videos. -/
def VideoSize.index3 (s : VideoSize) (x y t : Nat) : Option Nat :=
  if x < s.width ∧ y < s.height ∧ t < s.frames then
    some ((t * s.wh + y * s.width + x) % 4294967296)
  else none

/-- The method `VideoSize::coords(idx, x, y, t, c)`, returning `(x, y, t, c)`:
`none` when the assertion fails or a divisor is zero. -/
def VideoSize.coords (s : VideoSize) (idx : Nat) : Option (Nat × Nat × Nat × Nat) :=
  if idx < s.whcf then
    if s.whc = 0 ∨ s.wh = 0 ∨ s.width = 0 then none
    else some (idx % s.width, (idx % s.wh) / s.width, idx / s.whc, (idx % s.whc) / s.wh)
  else none

/-- The method `VideoSize::coords(idx, x, y, t)`, returning `(x, y, t)`. -/
def VideoSize.coords3 (s : VideoSize) (idx : Nat) : Option (Nat × Nat × Nat) :=
  if idx < s.whf then
    if s.wh = 0 ∨ s.width = 0 then none
    else some (idx % s.width, (idx % s.wh) / s.width, idx / s.wh)
  else none

/-! ### Machine integers -/

/-- A signed 32-bit result: `none` when the mathematical value does not fit
(signed overflow is undefined behaviour). -/
def int32 (z : Int) : Option Int :=
  if -2147483648 ≤ z ∧ z < 2147483648 then some z else none

/-- The conversion `(int)u` of an `unsigned` to `int` (two's complement). -/
def castInt (u : Nat) : Int :=
  if u < 2147483648 then (u : Int) else (u : Int) - 4294967296

/-- The implicit conversion of an `int` to `unsigned` (reduction modulo `2^32`). -/
def castUnsigned (z : Int) : Nat := (z % 4294967296).toNat

/-! ### The class template `Video<T>` -/

/-- The class `Video<T>`: the size `sz` and the vector `data`. -/
structure Video (α : Type) where
  sz : VideoSize
  data : List α

/-- The call `std::vector<T>::resize(n)`: truncate, or append value-initialised
elements. -/
def vectorResize {α : Type} [Inhabited α] (d : List α) (n : Nat) : List α :=
  d.take n ++ List.replicate (n - d.length) default

/-- The constructor `Video(void)`: `sz()`, `data(0)`. -/
def Video.ctorVoid {α : Type} [Inhabited α] : Video α :=
  Video.mk VideoSize.ctorVoid (List.replicate 0 default)

/-- The copy constructor `Video(const Video& i_in)`. -/
def Video.ctorCopy {α : Type} (i_in : Video α) : Video α :=
  Video.mk i_in.sz i_in.data

/-- The constructor `Video(i_width, i_height, i_frames, i_channels)`:
`sz(...)` then `data(sz.whcf)`. -/
def Video.ctorDims {α : Type} [Inhabited α] (i_width i_height i_frames i_channels : Nat) :
    Video α :=
  let sz := VideoSize.ctor i_width i_height i_frames i_channels
  Video.mk sz (List.replicate sz.whcf default)

/-- The constructor `Video(i_width, i_height, i_frames, i_channels, val)`. -/
def Video.ctorDimsVal {α : Type} (i_width i_height i_frames i_channels : Nat) (val : α) :
    Video α :=
  let sz := VideoSize.ctor i_width i_height i_frames i_channels
  Video.mk sz (List.replicate sz.whcf val)

/-- The constructor `Video(const VideoSize& i_size)`. -/
def Video.ctorSize {α : Type} [Inhabited α] (i_size : VideoSize) : Video α :=
  Video.mk i_size (List.replicate i_size.whcf default)

/-- The constructor `Video(const VideoSize& i_size, T val)`. -/
def Video.ctorSizeVal {α : Type} (i_size : VideoSize) (val : α) : Video α :=
  Video.mk i_size (List.replicate i_size.whcf val)

/-- The method `Video<T>::clear`: the primary fields are zeroed, the derived
ones recomputed, the vector emptied. -/
def Video.clear {α : Type} (v : Video α) : Video α :=
  Video.mk
    (VideoSize.update_fields (VideoSize.mk 0 0 0 0 v.sz.wh v.sz.whc v.sz.whcf v.sz.whf))
    []

/-- The method `Video<T>::resize(const VideoSize& i_size)`. -/
def Video.resize {α : Type} [Inhabited α] (v : Video α) (i_size : VideoSize) : Video α :=
  if VideoSize.neOp v.sz i_size then
    Video.mk i_size (vectorResize (Video.clear v).data i_size.whcf)
  else v

/-- The method `Video<T>::resize(i_width, i_height, i_frames, i_channels)`. -/
def Video.resizeDims {α : Type} [Inhabited α] (v : Video α)
    (i_width i_height i_frames i_channels : Nat) : Video α :=
  Video.resize v (VideoSize.ctor i_width i_height i_frames i_channels)

/-- The read access `operator()(unsigned idx)`: asserts `idx < sz.whcf`. -/
def Video.opCallIdx {α : Type} (v : Video α) (idx : Nat) : Option α :=
  if idx < v.sz.whcf then v.data[idx]? else none

/-- The read access `operator()(x, y, t, c)`: `data[sz.index(x,y,t,c)]`. -/
def Video.opCall {α : Type} (v : Video α) (x y t c : Nat) : Option α :=
  (v.sz.index x y t c).bind fun i => v.data[i]?

/-- The write access `operator()(x, y, t, c) = val`. -/
def Video.opCallSet {α : Type} (v : Video α) (x y t c : Nat) (val : α) : Option (Video α) :=
  (v.sz.index x y t c).bind fun i =>
    if i < v.data.length then some (Video.mk v.sz (v.data.set i val)) else none

/-- One coordinate of the assertion of `getPixelSymmetric`,
`-(int)n < x && x < 2*(int)n - 1`, evaluated left to right with short circuit;
`none` when a signed operation overflows. -/
def symAssert1 (n : Nat) (x : Int) : Option Bool :=
  (int32 (-(castInt n))).bind fun a =>
    if a < x then
      (int32 (2 * castInt n)).bind fun b =>
        (int32 (b - 1)).bind fun b1 => some (decide (x < b1))
    else some false

/-- The assertion of `getPixelSymmetric` on `x`, `y` and `t`. -/
def symAssert (s : VideoSize) (x y t : Int) : Option Bool :=
  (symAssert1 s.width x).bind fun bx =>
    if bx then
      (symAssert1 s.height y).bind fun b2 =>
        if b2 then symAssert1 s.frames t else some false
    else some false

/-- One line of the symmetrisation of `getPixelSymmetric`:
`(x < 0) ? -x : (x >= (int)n) ? 2*(int)n - 2 - x : x`. -/
def symmetrize (n : Nat) (x : Int) : Option Int :=
  if x < 0 then int32 (-x)
  else if x ≥ castInt n then
    (int32 (2 * castInt n)).bind fun b =>
      (int32 (b - 2)).bind fun b2 => int32 (b2 - x)
  else some x

/-- The method `Video<T>::getPixelSymmetric(int x, int y, int t, unsigned c)`. -/
def Video.getPixelSymmetric {α : Type} (v : Video α) (x y t : Int) (c : Nat) : Option α :=
  (symAssert v.sz x y t).bind fun ok =>
    if ok then
      (symmetrize v.sz.width x).bind fun x1 =>
        (symmetrize v.sz.height y).bind fun y1 =>
          (symmetrize v.sz.frames t).bind fun t1 =>
            (v.sz.index (castUnsigned x1) (castUnsigned y1) (castUnsigned t1) c).bind
              fun i => v.data[i]?
    else none

/-- The class invariant of `Video<T>`: `data.size() == sz.whcf`. -/
def Video.Inv {α : Type} (v : Video α) : Prop := v.data.length = v.sz.whcf

instance {α : Type} (v : Video α) : Decidable (Video.Inv v) := by
  unfold Video.Inv; infer_instance

/-! ### The copy loops of `utils.cpp` -/

/-- A counted loop `for (i = start; ...; ++i)` with `k` iterations left; an
iteration that does not return normally ends the run. -/
def forFrom {σ : Type} (body : Nat → σ → Option σ) : Nat → Nat → σ → Option σ
  | _, 0, s => some s
  | i, k + 1, s => (body i s).bind (forFrom body (i + 1) k)

/-- The loop `for (unsigned i = 0; i < n; ++i) body`. -/
def forLoop {σ : Type} (n : Nat) (body : Nat → σ → Option σ) (s : σ) : Option σ :=
  forFrom body 0 n s

/-- The state of the copy loops of `read_video`: the memory behind the pointer
`I`, as a map from offsets to samples, and the unsigned counter `pos_I`. -/
structure CopyState (α : Type) where
  I : Nat → α
  pos_I : Nat

/-- One iteration of the one-channel loop of `read_video`:
`I[pos_I+0] = input(i); I[pos_I+1] = input(i); I[pos_I+2] = input(i);` followed
by `++i, pos_I += 3`; the increment of the `int i` must fit 32 bits. -/
def read_video_body1 {α : Type} (input : Video α) (i : Nat) (s : CopyState α) :
    Option (CopyState α) :=
  (input.opCallIdx i).bind fun a0 =>
    (input.opCallIdx i).bind fun a1 =>
      (input.opCallIdx i).bind fun a2 =>
        let I1 := Function.update s.I ((s.pos_I + 0) % 4294967296) a0
        let I2 := Function.update I1 ((s.pos_I + 1) % 4294967296) a1
        let I3 := Function.update I2 ((s.pos_I + 2) % 4294967296) a2
        (int32 ((i : Int) + 1)).bind fun _ =>
          some (CopyState.mk I3 ((s.pos_I + 3) % 4294967296))

/-- One iteration of the innermost three-channel loop of `read_video`:
`I[pos_I] = input(i,j,k,c)` followed by `++c, ++pos_I`. -/
def read_video_body3 {α : Type} (input : Video α) (k j i c : Nat) (s : CopyState α) :
    Option (CopyState α) :=
  (input.opCall i j k c).bind fun a =>
    some (CopyState.mk (Function.update s.I s.pos_I a) ((s.pos_I + 1) % 4294967296))

/-- The function `read_video` after `input.loadVideo(...)`, on the loaded
video `input` and the memory `I`: the final memory and the returned `pos_I`. -/
def read_video {α : Type} (input : Video α) (I : Nat → α) : Option (CopyState α) :=
  if input.sz.channels ≠ 1 ∧ input.sz.channels ≠ 3 then
    some (CopyState.mk I 0)
  else if input.sz.channels = 1 then
    forLoop input.sz.whf (read_video_body1 input) (CopyState.mk I 0)
  else
    forLoop input.sz.frames (fun k =>
      forLoop input.sz.height (fun j =>
        forLoop input.sz.width (fun i =>
          forLoop input.sz.channels (fun c => read_video_body3 input k j i c))))
      (CopyState.mk I 0)

/-- The state of the copy loop of `write_video`: the video `output` and the
unsigned counter `pos_I`. -/
structure WriteState (α : Type) where
  output : Video α
  pos_I : Nat

/-- One iteration of the innermost loop of `write_video`:
`output(i,j,k,c) = I[pos_I]` followed by `++c, ++pos_I`. -/
def write_video_body {α : Type} (I : Nat → α) (k j i c : Nat) (s : WriteState α) :
    Option (WriteState α) :=
  (s.output.opCallSet i j k c (I s.pos_I)).bind fun o =>
    some (WriteState.mk o ((s.pos_I + 1) % 4294967296))

/-- The function `write_video` up to the call of `output.saveVideo(...)`: the
video handed to `saveVideo` and the returned `pos_I`. The `int` arguments are
converted to `unsigned` by the constructor call. -/
def write_video {α : Type} [Inhabited α] (I : Nat → α) (width height frames channels : Int) :
    Option (WriteState α) :=
  let output : Video α :=
    Video.ctorDims (castUnsigned width) (castUnsigned height) (castUnsigned frames)
      (castUnsigned channels)
  forLoop output.sz.frames (fun k =>
    forLoop output.sz.height (fun j =>
      forLoop output.sz.width (fun i =>
        forLoop output.sz.channels (fun c => write_video_body I k j i c))))
    (WriteState.mk output 0)

/-! ### The transform files of `utils.cpp` -/

/-- A text file that `fopen` opened for reading, as seen through the calls of
`fscanf` made by `read_transforms`: `header` lists the integers converted by
the four `%d` directives of the first call (fewer than four when the
conversion stops early, none when it fails at once or the file is empty);
`data k` is the outcome of the `k`-th following `%f` conversion, `none` when
that conversion fails or meets the end of the file. -/
structure TransformFile (α : Type) where
  header : List Int
  data : Nat → Option α

/-- What `read_transforms` leaves to its caller: the array behind `H` and the
references `nx` and `ny`. The function returns `void`. -/
structure TransformsResult (α : Type) where
  H : Nat → α
  nx : Int
  ny : Int

/-- The state of the loops of `read_transforms`: the array behind `H` and the
number of `%f` conversions made so far. -/
structure ScanState (α : Type) where
  H : Nat → α
  calls : Nat

/-- One iteration of the inner loop of `read_transforms`:
`r = fscanf(fd, "%f", &(H[i*nparams+j]))`; the index is computed in `int`
arithmetic, the element is stored only when the conversion succeeds. -/
def read_transforms_body {α : Type} (file : TransformFile α) (nparams : Int) (i j : Nat)
    (s : ScanState α) : Option (ScanState α) :=
  (int32 ((i : Int) * nparams)).bind fun m =>
    (int32 (m + (j : Int))).bind fun idx =>
      if idx < 0 then none
      else
        match file.data s.calls with
        | some a => some (ScanState.mk (Function.update s.H idx.toNat a) (s.calls + 1))
        | none => some (ScanState.mk s.H (s.calls + 1))

/-- The function `read_transforms`; `file` is `none` when `fopen` returns
`NULL`. The first `fscanf` overwrites the by-value parameters `nparams` and
`ntransforms` and the references `nx`, `ny` as far as it converts; the loops
run when it converted at least one integer (`r > 0`). -/
def read_transforms {α : Type} (file : Option (TransformFile α)) (H : Nat → α)
    (nparams ntransforms nx ny : Int) : Option (TransformsResult α) :=
  match file with
  | none => some (TransformsResult.mk H nx ny)
  | some fd =>
    let nparams2 := (fd.header[0]?).getD nparams
    let ntransforms2 := (fd.header[1]?).getD ntransforms
    let nx2 := (fd.header[2]?).getD nx
    let ny2 := (fd.header[3]?).getD ny
    if 0 < fd.header.length then
      (forLoop ntransforms2.toNat (fun i =>
        forLoop nparams2.toNat (fun j => read_transforms_body fd nparams2 i j))
        (ScanState.mk H 0)).map fun s => TransformsResult.mk s.H nx2 ny2
    else some (TransformsResult.mk H nx2 ny2)

/-- One iteration of the loop of `save_transforms`:
`params2matrix(H + i*nparams, matrix, nparams)`, then nine times
`fprintf(fd, "%.15f ", matrix[j])`, then `fprintf(fd, "\n")`. The text written
so far is the state. `params2matrix` (declared in
`direct_method/transformation.h`, not part of the sources) and the `%.15f`
conversion of `fprintf` are parameters: `params2matrix blk nparams j` is the
entry `matrix[j]` computed from the block `blk`, `fmt a` the text of `a`. -/
def save_transforms_body {α : Type} (fmt : α → String)
    (params2matrix : (Nat → α) → Int → Nat → α) (H : Nat → α) (nparams : Int) (i : Nat)
    (out : String) : Option String :=
  (int32 ((i : Int) * nparams)).bind fun off =>
    if off < 0 then none
    else
      (forLoop 9 (fun j o =>
        some (o ++ fmt (params2matrix (fun q => H (off.toNat + q)) nparams j) ++ " ")) out).map
        fun o => o ++ "\n"

/-- The function `save_transforms`: the text written to the file, empty when
`fopen` returns `NULL` (`opened = false`). The arguments `nx` and `ny` (here
`_nx`, `_ny`) are not used. -/
def save_transforms {α : Type} (opened : Bool) (fmt : α → String)
    (params2matrix : (Nat → α) → Int → Nat → α) (H : Nat → α)
    (nparams ntransforms _nx _ny : Int) : Option String :=
  if opened then
    forLoop ntransforms.toNat (save_transforms_body fmt params2matrix H nparams) ""
  else some ""

/-- The line that the format of `save_transforms` gives for the matrix
entries `m 0 .. m 8`: each entry followed by one blank, then a newline. -/
def transformLine {α : Type} (fmt : α → String) (m : Nat → α) : String :=
  fmt (m 0) ++ " " ++ fmt (m 1) ++ " " ++ fmt (m 2) ++ " " ++ fmt (m 3) ++ " " ++
    fmt (m 4) ++ " " ++ fmt (m 5) ++ " " ++ fmt (m 6) ++ " " ++ fmt (m 7) ++ " " ++
    fmt (m 8) ++ " " ++ "\n"

/-- The concatenation of the lines `line 0, ..., line (n-1)`. -/
def linesUpTo (line : Nat → String) : Nat → String
  | 0 => ""
  | n + 1 => linesUpTo line n ++ line n

/-- The `%.15f` conversion on samples holding natural numbers: the decimal
digits, the point and fifteen zeros. -/
def fmt15 (a : Nat) : String := Nat.repr a ++ ".000000000000000"

/-- Modelled from the spec: the parameter-to-matrix mapping of the scenario,
"an identity-mapping `toMatrix`", which yields the identity matrix for every
parameter block. -/
def identityMatrix (_blk : Nat → Nat) (_nparams : Int) (j : Nat) : Nat :=
  if j % 4 = 0 then 1 else 0

/-- The line of the scenario as the specification words it: the nine entries
of the identity matrix with fifteen decimals, separated by single blanks,
without the newline. -/
def identityLineText : String :=
  "1.000000000000000 0.000000000000000 0.000000000000000 " ++
  "0.000000000000000 1.000000000000000 0.000000000000000 " ++
  "0.000000000000000 0.000000000000000 1.000000000000000"

/-- A transform file with the header `2 3 640 480` and only two data lines,
`1 2` and `3 4`. -/
def shortFile : TransformFile Nat :=
  TransformFile.mk [2, 3, 640, 480] (fun k => [1, 2, 3, 4][k]?)

/-- A transform file with the header `2 3 640 480` and three data lines,
`1 2`, `3 4` and `9 9`. -/
def completeFile : TransformFile Nat :=
  TransformFile.mk [2, 3, 640, 480] (fun k => [1, 2, 3, 4, 9, 9][k]?)

/-- A transform file with the header `2147483647 2 640 480` followed by
`2 * 2147483647 = 4294967294` values `0`. -/
def hugeFile : TransformFile Nat :=
  TransformFile.mk [2147483647, 2, 640, 480]
    (fun k => if k < 4294967294 then some 0 else none)

/-- A video whose derived size fields are current, whose volume does not
overflow 32 bits and whose vector has the length `sz.whcf`. -/
def Video.WellFormed {α : Type} (v : Video α) : Prop :=
  v.sz = VideoSize.ctor v.sz.width v.sz.height v.sz.frames v.sz.channels ∧
    v.sz.width * v.sz.height * v.sz.channels * v.sz.frames < 4294967296 ∧
    v.data.length = v.sz.whcf

instance {α : Type} (v : Video α) : Decidable (Video.WellFormed v) := by
  unfold Video.WellFormed; infer_instance

/-- A video of width `2^31 + 1`, height 1, one frame and one channel, built by
`Video(2147483649, 1, 1, 1, 0)`. -/
def wideVideo : Video Nat := Video.ctorDimsVal 2147483649 1 1 1 0

/-- A small video with 3 x 2 pixels, 2 frames and 1 channel holding `0 .. 11`. -/
def smallVideo : Video Nat := Video.mk (VideoSize.ctor 3 2 2 1) (List.range 12)

/-- A video with two channels, built by `Video(2, 1, 1, 2, 5)`. -/
def twoChannelVideo : Video Nat := Video.ctorDimsVal 2 1 1 2 5

/-- A one-channel video with `1431655766` pixels (so that three times the
pixel count exceeds `2^32`), built by `Video(1431655766, 1, 1, 1, 0)`. -/
def longVideo : Video Nat := Video.ctorDimsVal 1431655766 1 1 1 0

/-- A one-channel video with 2 x 2 pixels and one frame. -/
def grayVideo : Video Nat := Video.mk (VideoSize.ctor 2 2 1 1) [10, 11, 12, 13]

/-- A three-channel video with 2 x 1 pixels and one frame. -/
def colourVideo : Video Nat := Video.mk (VideoSize.ctor 2 1 1 3) [10, 11, 20, 21, 30, 31]

/-- A three-channel video whose volume `65536*65536*3*1` overflows 32 bits,
built by `Video(65536, 65536, 1, 3, 0)`: its `whcf` is 0 and its vector empty. -/
def overflowVideo : Video Nat := Video.ctorDimsVal 65536 65536 1 3 0

/-- The derived fields of a `VideoSize` are current: each is the product named
in `update_fields`, computed in 32-bit unsigned arithmetic. -/
def VideoSize.Derived (s : VideoSize) : Prop :=
  s.wh = (s.width * s.height) % 4294967296 ∧
    s.whc = (s.wh * s.channels) % 4294967296 ∧
    s.whcf = (s.whc * s.frames) % 4294967296 ∧
    s.whf = (s.wh * s.frames) % 4294967296

instance (s : VideoSize) : Decidable (VideoSize.Derived s) := by
  unfold VideoSize.Derived; infer_instance

/-- The constructor `Video(i_pathToFiles, i_firstFrame, i_lastFrame, i_frameStep)`:
`sz()`, `data(0)`, then the call of `loadVideo`. The specialisation of
`loadVideo` is not part of the sources; it is taken as a parameter acting on
the video under construction. -/
def Video.ctorFile {α : Type} [Inhabited α] (loadVideo : Video α → Option (Video α)) :
    Option (Video α) :=
  loadVideo Video.ctorVoid

/-- A video of height `2^31 + 1`, width 1, one frame and one channel, built by
`Video(1, 2147483649, 1, 1, 0)`. -/
def tallVideo : Video Nat := Video.ctorDimsVal 1 2147483649 1 1 0

/-- The state of the three-channel loops of `read_video` together with a
record of the offsets of `I` stored to so far, in order of the stores. The
record is not a variable of the program; it only observes the stores. -/
structure LogState (α : Type) where
  st : CopyState α
  log : List Nat

/-- One iteration of the innermost three-channel loop of `read_video`, the
offset `pos_I` of its store `I[pos_I] = input(i,j,k,c)` being recorded. -/
def read_video_body3_log {α : Type} (input : Video α) (k j i c : Nat) (s : LogState α) :
    Option (LogState α) :=
  (read_video_body3 input k j i c s.st).map fun st2 =>
    LogState.mk st2 (s.log ++ [s.st.pos_I])

/-- The three-channel loops of `read_video` with the record of the stores. -/
def read_video_loops3_log {α : Type} (input : Video α) (I : Nat → α) : Option (LogState α) :=
  forLoop input.sz.frames (fun k =>
    forLoop input.sz.height (fun j =>
      forLoop input.sz.width (fun i =>
        forLoop input.sz.channels (fun c => read_video_body3_log input k j i c))))
    (LogState.mk (CopyState.mk I 0) [])

/-- A three-channel video whose volume `65536*32768*3*2` overflows 32 bits,
built by `Video(65536, 32768, 2, 3, 0)`: its `whcf` is 0 and its vector empty. -/
def wrappedVideo : Video Nat := Video.ctorDimsVal 65536 32768 2 3 0

/-- The three-channel video with 2 x 2 pixels and one frame whose three planes
repeat `grayVideo`. -/
def grayVideo3 : Video Nat :=
  Video.mk (VideoSize.ctor 2 2 1 3) [10, 11, 12, 13, 10, 11, 12, 13, 10, 11, 12, 13]

/-! ## Theorems -/

/-! ### Arithmetic of mixed-radix positions -/

theorem mixed_lt {q r a b : Nat} (hq : q < a) (hr : r < b) : q * b + r < a * b := by
  have h1 : (q + 1) * b ≤ a * b := Nat.mul_le_mul_right b hq
  have h2 : (q + 1) * b = q * b + b := by ring
  omega

theorem mixed_div {q r b : Nat} (hr : r < b) : (q * b + r) / b = q := by
  have hb : 0 < b := by omega
  rw [Nat.add_comm, Nat.add_mul_div_right _ _ hb, Nat.div_eq_of_lt hr, Nat.zero_add]

theorem mixed_mod {q r b : Nat} (hr : r < b) : (q * b + r) % b = r := by
  rw [Nat.add_comm, Nat.add_mul_mod_self_right, Nat.mod_eq_of_lt hr]

theorem div_lt_of_lt_mul' {n a b : Nat} (h : n < a * b) : n / b < a := by
  rcases Nat.eq_zero_or_pos b with hb | hb
  · subst hb; simp at h
  · exact (Nat.div_lt_iff_lt_mul hb).2 h

/-- The fields of a constructed `VideoSize` when no product overflows. -/
theorem ctor_fields (w h f c : Nat) (hov : w * h * c * f < 4294967296)
    (hc : 0 < c) (hf : 0 < f) :
    VideoSize.ctor w h f c
      = VideoSize.mk w h f c (w * h) (w * h * c) (w * h * c * f) (w * h * f) := by
  have h1 : w * h * c ≤ w * h * c * f := Nat.le_mul_of_pos_right _ hf
  have h2 : w * h ≤ w * h * c := Nat.le_mul_of_pos_right _ hc
  have h3 : w * h * f ≤ w * h * c * f :=
    Nat.mul_le_mul_right f h2
  have e1 : w * h % 4294967296 = w * h := Nat.mod_eq_of_lt (by omega)
  have e2 : w * h * c % 4294967296 = w * h * c := Nat.mod_eq_of_lt (by omega)
  have e3 : w * h * c * f % 4294967296 = w * h * c * f := Nat.mod_eq_of_lt (by omega)
  have e4 : w * h * f % 4294967296 = w * h * f := Nat.mod_eq_of_lt (by omega)
  simp only [VideoSize.ctor, VideoSize.update_fields, e1, e2, e3, e4]

/-- The linear position of an in-range coordinate lies below the volume. -/
theorem pos_lt {w h f c x y t k : Nat} (hx : x < w) (hy : y < h) (ht : t < f) (hk : k < c) :
    t * (w * h * c) + k * (w * h) + y * w + x < w * h * c * f := by
  have a : y * w + x < h * w := mixed_lt hy hx
  have a' : y * w + x < w * h := by rw [Nat.mul_comm w h]; exact a
  have b : k * (w * h) + (y * w + x) < c * (w * h) := mixed_lt hk a'
  have b' : k * (w * h) + (y * w + x) < w * h * c := by rw [Nat.mul_comm (w * h) c]; exact b
  have d : t * (w * h * c) + (k * (w * h) + (y * w + x)) < f * (w * h * c) := mixed_lt ht b'
  have e : f * (w * h * c) = w * h * c * f := Nat.mul_comm _ _
  omega

/-- The digits of the linear position of an in-range coordinate. -/
theorem pos_digits {w h c x y k : Nat} (t : Nat) (hx : x < w) (hy : y < h) (hk : k < c) :
    let p := t * (w * h * c) + k * (w * h) + y * w + x
    p % w = x ∧ (p % (w * h)) / w = y ∧ p / (w * h * c) = t ∧ (p % (w * h * c)) / (w * h) = k := by
  intro p
  have a : y * w + x < h * w := mixed_lt hy hx
  have a' : y * w + x < w * h := by rw [Nat.mul_comm w h]; exact a
  have b : k * (w * h) + (y * w + x) < c * (w * h) := mixed_lt hk a'
  have b' : k * (w * h) + (y * w + x) < w * h * c := by rw [Nat.mul_comm (w * h) c]; exact b
  have p1 : p = (t * (h * c) + k * h + y) * w + x := by simp only [p]; ring
  have p2 : p = (t * c + k) * (w * h) + (y * w + x) := by simp only [p]; ring
  have p3 : p = t * (w * h * c) + (k * (w * h) + (y * w + x)) := by simp only [p]; ring
  have m2 : p % (w * h) = y * w + x := by rw [p2]; exact mixed_mod a'
  have m3 : p % (w * h * c) = k * (w * h) + (y * w + x) := by rw [p3]; exact mixed_mod b'
  refine ⟨?_, ?_, ?_, ?_⟩
  · rw [p1]; exact mixed_mod hx
  · rw [m2]; exact mixed_div hx
  · rw [p3]; exact mixed_div b'
  · rw [m3]; exact mixed_div a'

/-- Every position below the volume is rebuilt from its digits. -/
theorem digits_pos (w h c idx : Nat) :
    (idx / (w * h * c)) * (w * h * c) + ((idx % (w * h * c)) / (w * h)) * (w * h)
      + ((idx % (w * h)) / w) * w + idx % w = idx := by
  have d1 := Nat.div_add_mod idx (w * h * c)
  have d2 := Nat.div_add_mod (idx % (w * h * c)) (w * h)
  have d3 := Nat.div_add_mod (idx % (w * h)) w
  have e2 : idx % (w * h * c) % (w * h) = idx % (w * h) :=
    Nat.mod_mod_of_dvd idx (Dvd.intro c rfl)
  have e3 : idx % (w * h) % w = idx % w :=
    Nat.mod_mod_of_dvd idx (Dvd.intro h rfl)
  rw [e2] at d2
  rw [e3] at d3
  rw [Nat.mul_comm (idx / (w * h * c)), Nat.mul_comm (idx % (w * h * c) / (w * h)),
    Nat.mul_comm (idx % (w * h) / w)]
  omega

/-- The index of an in-range coordinate, for a size built without overflow. -/
theorem index_ctor {w h f c x y t k : Nat} (hov : w * h * c * f < 4294967296)
    (hx : x < w) (hy : y < h) (ht : t < f) (hk : k < c) :
    (VideoSize.ctor w h f c).index x y t k
      = some (t * (w * h * c) + k * (w * h) + y * w + x) := by
  have hlt := pos_lt hx hy ht hk
  rw [ctor_fields w h f c hov (by omega) (by omega)]
  simp only [VideoSize.index, hx, hy, ht, hk, and_self, if_true]
  rw [Nat.mod_eq_of_lt (by omega)]

/-- The coordinates of an index below the volume, for a size built without overflow. -/
theorem coords_ctor {w h f c idx : Nat} (hov : w * h * c * f < 4294967296)
    (hidx : idx < w * h * c * f) :
    (VideoSize.ctor w h f c).coords idx
      = some (idx % w, (idx % (w * h)) / w, idx / (w * h * c), (idx % (w * h * c)) / (w * h)) := by
  have hf : 0 < f := by
    rcases Nat.eq_zero_or_pos f with h0 | h0
    · subst h0; simp at hidx
    · exact h0
  have hwhc : 0 < w * h * c := by
    rcases Nat.eq_zero_or_pos (w * h * c) with h0 | h0
    · rw [h0] at hidx; simp at hidx
    · exact h0
  have hc : 0 < c := by
    rcases Nat.eq_zero_or_pos c with h0 | h0
    · subst h0; simp at hwhc
    · exact h0
  have hwh : 0 < w * h := by
    rcases Nat.eq_zero_or_pos (w * h) with h0 | h0
    · rw [h0] at hwhc; simp at hwhc
    · exact h0
  have hw : 0 < w := by
    rcases Nat.eq_zero_or_pos w with h0 | h0
    · subst h0; simp at hwh
    · exact h0
  rw [ctor_fields w h f c hov hc hf]
  have n1 : ¬ (w * h * c = 0 ∨ w * h = 0 ∨ w = 0) := by omega
  simp only [VideoSize.coords, hidx, if_true, n1, if_false]

/-- The volume of a size built without overflow. -/
theorem whcf_ctor {w h f c : Nat} (hov : w * h * c * f < 4294967296) :
    (VideoSize.ctor w h f c).whcf = w * h * c * f := by
  rcases Nat.eq_zero_or_pos c with hc | hc
  · subst hc; simp [VideoSize.ctor, VideoSize.update_fields]
  rcases Nat.eq_zero_or_pos f with hf | hf
  · subst hf; simp [VideoSize.ctor, VideoSize.update_fields]
  rw [ctor_fields w h f c hov hc hf]

/-- Round trip of `coords` after `index`, shared by the claims below. -/
theorem index_coords_roundtrip {w h f c x y t k : Nat}
    (hov : w * h * c * f < 4294967296)
    (hx : x < w) (hy : y < h) (ht : t < f) (hk : k < c) :
    ((VideoSize.ctor w h f c).index x y t k).bind (VideoSize.ctor w h f c).coords
      = some (x, y, t, k) := by
  rw [index_ctor hov hx hy ht hk, Option.some_bind, coords_ctor hov (pos_lt hx hy ht hk)]
  obtain ⟨d1, d2, d3, d4⟩ := pos_digits t hx hy hk
  rw [d1, d2, d3, d4]

/-- Two in-range coordinates with the same index are equal. -/
theorem index_inj {w h f c x y t k x2 y2 t2 k2 : Nat} (hov : w * h * c * f < 4294967296)
    (hx : x < w) (hy : y < h) (ht : t < f) (hk : k < c)
    (hx2 : x2 < w) (hy2 : y2 < h) (ht2 : t2 < f) (hk2 : k2 < c)
    (heq : (VideoSize.ctor w h f c).index x y t k = (VideoSize.ctor w h f c).index x2 y2 t2 k2) :
    (x, y, t, k) = (x2, y2, t2, k2) := by
  have r1 := index_coords_roundtrip hov hx hy ht hk
  have r2 := index_coords_roundtrip hov hx2 hy2 ht2 hk2
  rw [heq, r2] at r1
  exact (Option.some.inj r1).symm

/-- Every position below the volume is the index of an in-range coordinate. -/
theorem index_surj {w h f c idx : Nat} (hov : w * h * c * f < 4294967296)
    (hidx : idx < w * h * c * f) :
    ∃ x y t k, x < w ∧ y < h ∧ t < f ∧ k < c ∧
      (VideoSize.ctor w h f c).index x y t k = some idx := by
  have hwhc : idx / (w * h * c) < f :=
    div_lt_of_lt_mul' (by rw [Nat.mul_comm f (w * h * c)]; exact hidx)
  have hpos : 0 < w * h * c := by
    rcases Nat.eq_zero_or_pos (w * h * c) with h0 | h0
    · rw [h0] at hidx; simp at hidx
    · exact h0
  have hpos2 : 0 < w * h := by
    rcases Nat.eq_zero_or_pos (w * h) with h0 | h0
    · rw [h0] at hpos; simp at hpos
    · exact h0
  have hw : 0 < w := by
    rcases Nat.eq_zero_or_pos w with h0 | h0
    · subst h0; simp at hpos2
    · exact h0
  have hk : idx % (w * h * c) / (w * h) < c :=
    div_lt_of_lt_mul' (by rw [Nat.mul_comm c (w * h)]; exact Nat.mod_lt _ hpos)
  have hy : idx % (w * h) / w < h :=
    div_lt_of_lt_mul' (by rw [Nat.mul_comm h w]; exact Nat.mod_lt _ hpos2)
  have hx : idx % w < w := Nat.mod_lt _ hw
  refine ⟨idx % w, idx % (w * h) / w, idx / (w * h * c), idx % (w * h * c) / (w * h),
    hx, hy, hwhc, hk, ?_⟩
  rw [index_ctor hov hx hy hwhc hk, digits_pos]

/-! ### Claims on `VideoSize` -/

/-- C1: for a `VideoSize` built by the constructor whose product
`width*height*channels*frames` does not overflow 32 bits, and every in-range
`(x, y, t, c)`, `coords` applied to `index(x, y, t, c)` returns `(x, y, t, c)`. -/
theorem C1_coords_index_roundtrip (w h f c x y t k : Nat)
    (hov : w * h * c * f < 4294967296)
    (hx : x < w) (hy : y < h) (ht : t < f) (hk : k < c) :
    ((VideoSize.ctor w h f c).index x y t k).bind (VideoSize.ctor w h f c).coords
      = some (x, y, t, k) :=
  index_coords_roundtrip hov hx hy ht hk

theorem C1_coords_index_roundtrip_witness :
    ((VideoSize.ctor 4 3 2 1).index 3 2 1 0).bind (VideoSize.ctor 4 3 2 1).coords
      = some (3, 2, 1, 0) :=
  C1_coords_index_roundtrip 4 3 2 1 3 2 1 0 (by decide) (by decide) (by decide)
    (by decide) (by decide)

/-- C2: for a `VideoSize` built by the constructor without 32-bit overflow,
every in-range coordinate has an index below `whcf`, two in-range coordinates
with the same index are equal, and every `idx < whcf` is the index of an
in-range coordinate. -/
theorem C2_index_bijective (w h f c : Nat) (hov : w * h * c * f < 4294967296) :
    (∀ x y t k, x < w → y < h → t < f → k < c →
      ∃ i, (VideoSize.ctor w h f c).index x y t k = some i ∧ i < (VideoSize.ctor w h f c).whcf) ∧
    (∀ x y t k x2 y2 t2 k2, x < w → y < h → t < f → k < c →
      x2 < w → y2 < h → t2 < f → k2 < c →
      (VideoSize.ctor w h f c).index x y t k = (VideoSize.ctor w h f c).index x2 y2 t2 k2 →
      (x, y, t, k) = (x2, y2, t2, k2)) ∧
    (∀ idx, idx < (VideoSize.ctor w h f c).whcf →
      ∃ x y t k, x < w ∧ y < h ∧ t < f ∧ k < c ∧
        (VideoSize.ctor w h f c).index x y t k = some idx) := by
  refine ⟨?_, ?_, ?_⟩
  · intro x y t k hx hy ht hk
    refine ⟨_, index_ctor hov hx hy ht hk, ?_⟩
    rw [whcf_ctor hov]
    exact pos_lt hx hy ht hk
  · intro x y t k x2 y2 t2 k2 hx hy ht hk hx2 hy2 ht2 hk2 heq
    exact index_inj hov hx hy ht hk hx2 hy2 ht2 hk2 heq
  · intro idx hidx
    rw [whcf_ctor hov] at hidx
    exact index_surj hov hidx

theorem C2_index_bijective_witness :
    (∀ x y t k, x < 4 → y < 3 → t < 2 → k < 1 →
      ∃ i, (VideoSize.ctor 4 3 2 1).index x y t k = some i ∧ i < (VideoSize.ctor 4 3 2 1).whcf) ∧
    (∀ x y t k x2 y2 t2 k2, x < 4 → y < 3 → t < 2 → k < 1 →
      x2 < 4 → y2 < 3 → t2 < 2 → k2 < 1 →
      (VideoSize.ctor 4 3 2 1).index x y t k = (VideoSize.ctor 4 3 2 1).index x2 y2 t2 k2 →
      (x, y, t, k) = (x2, y2, t2, k2)) ∧
    (∀ idx, idx < (VideoSize.ctor 4 3 2 1).whcf →
      ∃ x y t k, x < 4 ∧ y < 3 ∧ t < 2 ∧ k < 1 ∧
        (VideoSize.ctor 4 3 2 1).index x y t k = some idx) :=
  C2_index_bijective 4 3 2 1 (by decide)

/-- C10: for the extent `VideoSize(4, 3, 2, 1)`, `index(3, 2, 1, 0)` equals
`1*12 + 0*12 + 2*4 + 3 = 23` and `whcf` equals `24`. -/
theorem C10_scenario_index_and_volume :
    (VideoSize.ctor 4 3 2 1).index 3 2 1 0 = some (1 * 12 + 0 * 12 + 2 * 4 + 3) ∧
    1 * 12 + 0 * 12 + 2 * 4 + 3 = 23 ∧
    (VideoSize.ctor 4 3 2 1).whc = 12 ∧ (VideoSize.ctor 4 3 2 1).wh = 12 ∧
    (VideoSize.ctor 4 3 2 1).whcf = 24 := by
  decide

/-! ### Signed arithmetic of `getPixelSymmetric` -/

theorem int32_of_range {z : Int} (h1 : -2147483648 ≤ z) (h2 : z < 2147483648) :
    int32 z = some z := by
  simp [int32, h1, h2]

theorem int32_eq_some_iff {z r : Int} :
    int32 z = some r ↔ -2147483648 ≤ z ∧ z < 2147483648 ∧ r = z := by
  unfold int32
  split_ifs with h
  · constructor
    · intro e; exact ⟨h.1, h.2, (Option.some.inj e).symm⟩
    · rintro ⟨_, _, e⟩; rw [e]
  · constructor
    · intro e; cases e
    · rintro ⟨h1, h2, _⟩; exact absurd ⟨h1, h2⟩ h

theorem castInt_of_lt {n : Nat} (h : n < 2147483648) : castInt n = (n : Int) := by
  simp [castInt, h]

theorem castUnsigned_natCast {n : Nat} (h : n < 4294967296) : castUnsigned (n : Int) = n := by
  unfold castUnsigned
  omega

/-- The assertion on one coordinate passes exactly when `2*(int)n` fits and
`-(int)n < x < 2*(int)n - 1`. -/
theorem symAssert1_true_iff (n : Nat) (x : Int) :
    symAssert1 n x = some true ↔
      castInt n < 1073741824 ∧ -(castInt n) < x ∧ x < 2 * castInt n - 1 := by
  unfold symAssert1
  generalize castInt n = N
  constructor
  · intro h
    rcases ha : int32 (-N) with _ | a
    · rw [ha] at h; cases h
    rw [ha] at h
    obtain ⟨a1, a2, a3⟩ := int32_eq_some_iff.1 ha
    simp only [Option.some_bind] at h
    by_cases hax : a < x
    · rw [if_pos hax] at h
      rcases hb : int32 (2 * N) with _ | b
      · rw [hb] at h; cases h
      rw [hb] at h
      obtain ⟨b1, b2, b3⟩ := int32_eq_some_iff.1 hb
      simp only [Option.some_bind] at h
      rcases hc : int32 (b - 1) with _ | c
      · rw [hc] at h; cases h
      rw [hc] at h
      obtain ⟨c1, c2, c3⟩ := int32_eq_some_iff.1 hc
      simp only [Option.some_bind, Option.some.injEq, decide_eq_true_eq] at h
      omega
    · rw [if_neg hax] at h
      cases h
  · rintro ⟨h1, h2, h3⟩
    rw [int32_of_range (by omega) (by omega)]
    simp only [Option.some_bind]
    rw [if_pos h2, int32_of_range (by omega) (by omega)]
    simp only [Option.some_bind]
    rw [int32_of_range (by omega) (by omega)]
    simp only [Option.some_bind, Option.some.injEq, decide_eq_true_eq]
    exact h3

/-- The whole assertion passes exactly when it passes on each coordinate. -/
theorem symAssert_true_iff (s : VideoSize) (x y t : Int) :
    symAssert s x y t = some true ↔
      symAssert1 s.width x = some true ∧ symAssert1 s.height y = some true ∧
        symAssert1 s.frames t = some true := by
  unfold symAssert
  rcases symAssert1 s.width x with _ | bx
  · simp
  rcases symAssert1 s.height y with _ | b2
  · cases bx <;> simp
  cases bx <;> cases b2 <;> simp

/-- Under the asserted bounds the symmetrised coordinate is computed without
overflow and lies in `[0, (int)n)`. -/
theorem symmetrize_of_pre {n : Nat} {x : Int}
    (h1 : castInt n < 1073741824) (h2 : -(castInt n) < x) (h3 : x < 2 * castInt n - 1) :
    symmetrize n x
      = some (if x < 0 then -x else if x ≥ castInt n then 2 * castInt n - 2 - x else x) := by
  unfold symmetrize
  generalize castInt n = N at *
  by_cases hx : x < 0
  · rw [if_pos hx, if_pos hx, int32_of_range (by omega) (by omega)]
  · rw [if_neg hx, if_neg hx]
    by_cases hx2 : x ≥ N
    · rw [if_pos hx2, if_pos hx2, int32_of_range (by omega) (by omega)]
      simp only [Option.some_bind]
      rw [int32_of_range (by omega) (by omega)]
      simp only [Option.some_bind]
      rw [int32_of_range (by omega) (by omega)]
    · rw [if_neg hx2, if_neg hx2]

/-- With the assertion passed, `getPixelSymmetric` is the access at the
symmetrised coordinates. -/
theorem getPixelSymmetric_of_pre {α : Type} (v : Video α) (x y t : Int) (c : Nat)
    (hpre : symAssert v.sz x y t = some true) :
    v.getPixelSymmetric x y t c =
      (symmetrize v.sz.width x).bind fun x1 =>
        (symmetrize v.sz.height y).bind fun y1 =>
          (symmetrize v.sz.frames t).bind fun t1 =>
            (v.sz.index (castUnsigned x1) (castUnsigned y1) (castUnsigned t1) c).bind
              fun i => v.data[i]? := by
  unfold Video.getPixelSymmetric
  rw [hpre]
  simp only [Option.some_bind, if_true]

/-- An in-range coordinate of a dimension below `2^30` passes the assertion and
is left unchanged by the symmetrisation. -/
theorem sym_in_range {n x : Nat} (hn : n < 1073741824) (hx : x < n) :
    symAssert1 n (x : Int) = some true ∧ symmetrize n (x : Int) = some (x : Int) := by
  have hc : castInt n = (n : Int) := castInt_of_lt (by omega)
  have hp : castInt n < 1073741824 ∧ -(castInt n) < (x : Int) ∧ (x : Int) < 2 * castInt n - 1 := by
    rw [hc]; omega
  refine ⟨(symAssert1_true_iff n x).2 hp, ?_⟩
  rw [symmetrize_of_pre hp.1 hp.2.1 hp.2.2, hc]
  have h1 : ¬ ((x : Int) < 0) := by omega
  have h2 : ¬ ((x : Int) ≥ (n : Int)) := by omega
  rw [if_neg h1, if_neg h2]



/-! ### Claims on `Video<T>` -/

theorem ctor_width (w h f c : Nat) : (VideoSize.ctor w h f c).width = w := rfl
theorem ctor_height (w h f c : Nat) : (VideoSize.ctor w h f c).height = h := rfl
theorem ctor_frames (w h f c : Nat) : (VideoSize.ctor w h f c).frames = f := rfl
theorem ctor_channels (w h f c : Nat) : (VideoSize.ctor w h f c).channels = c := rfl

/-- In a well-formed video the direct access at an in-range coordinate returns
an element. -/
theorem opCall_defined {α : Type} (v : Video α) (hwf : v.WellFormed) {x y t c : Nat}
    (hx : x < v.sz.width) (hy : y < v.sz.height) (ht : t < v.sz.frames)
    (hc : c < v.sz.channels) : ∃ a, v.opCall x y t c = some a := by
  obtain ⟨hsz, hov, hlen⟩ := hwf
  have hi := index_ctor hov hx hy ht hc
  have hlt := pos_lt hx hy ht hc
  have hvol : v.sz.whcf = v.sz.width * v.sz.height * v.sz.channels * v.sz.frames := by
    conv_lhs => rw [hsz]
    exact whcf_ctor hov
  rw [← hsz] at hi
  unfold Video.opCall
  rw [hi, Option.some_bind]
  have hb : t * (v.sz.width * v.sz.height * v.sz.channels)
      + c * (v.sz.width * v.sz.height) + y * v.sz.width + x < v.data.length := by
    rw [hlen, hvol]; exact hlt
  exact ⟨_, List.getElem?_eq_getElem hb⟩

/-- C3 (counterexample): the video built by `Video(2147483649, 1, 1, 1, 0)` has
`data.size() == sz.whcf` and `(0, 0, 0, 0)` is in range, the direct access
returns the element, `getPixelSymmetric(0, 0, 0, 0)` fails its assertion. -/
theorem C3_counterexample_wide_video :
    wideVideo.data.length = wideVideo.sz.whcf ∧
    0 < wideVideo.sz.width ∧ 0 < wideVideo.sz.height ∧ 0 < wideVideo.sz.frames ∧
    0 < wideVideo.sz.channels ∧
    symAssert wideVideo.sz 0 0 0 = some false ∧
    wideVideo.getPixelSymmetric 0 0 0 0 = none ∧
    wideVideo.opCall 0 0 0 0 = some 0 := by
  have hsz : wideVideo.sz = VideoSize.mk 2147483649 1 1 1 2147483649 2147483649
      2147483649 2147483649 := by decide
  have hdata : wideVideo.data = List.replicate 2147483649 0 := by
    show List.replicate (VideoSize.ctor 2147483649 1 1 1).whcf 0 = _
    rw [show (VideoSize.ctor 2147483649 1 1 1).whcf = 2147483649 by decide]
  have hassert : symAssert wideVideo.sz 0 0 0 = some false := by
    rw [hsz]; decide
  refine ⟨?_, ?_, ?_, ?_, ?_, hassert, ?_, ?_⟩
  · rw [hdata, hsz, List.length_replicate]
  · rw [hsz]; decide
  · rw [hsz]; decide
  · rw [hsz]; decide
  · rw [hsz]; decide
  · unfold Video.getPixelSymmetric
    rw [hassert]
    rfl
  · unfold Video.opCall
    rw [hsz, hdata]
    rw [show (VideoSize.mk 2147483649 1 1 1 2147483649 2147483649 2147483649
      2147483649).index 0 0 0 0 = some 0 by decide]
    rw [Option.some_bind, List.getElem?_replicate, if_pos (by omega)]

/-- C3 (amended): when width, height and frames are below `2^30` (so that twice
each fits a signed 32-bit `int`), `getPixelSymmetric` at an in-range coordinate
returns the same as the direct access `operator()`; in a well-formed video
that result is an element. -/
theorem C3_mirror_equals_direct_in_range {α : Type} (v : Video α) (x y t c : Nat)
    (hlen : v.data.length = v.sz.whcf)
    (hw : v.sz.width < 1073741824) (hh : v.sz.height < 1073741824)
    (hf : v.sz.frames < 1073741824)
    (hx : x < v.sz.width) (hy : y < v.sz.height) (ht : t < v.sz.frames)
    (hc : c < v.sz.channels) :
    v.getPixelSymmetric (x : Int) (y : Int) (t : Int) c = v.opCall x y t c ∧
    (v.WellFormed → ∃ a, v.opCall x y t c = some a) := by
  have _ := hlen
  obtain ⟨ax, sx⟩ := sym_in_range hw hx
  obtain ⟨a_y, s_y⟩ := sym_in_range hh hy
  obtain ⟨a_t, s_t⟩ := sym_in_range hf ht
  refine ⟨?_, fun hwf => opCall_defined v hwf hx hy ht hc⟩
  rw [getPixelSymmetric_of_pre v _ _ _ c ((symAssert_true_iff _ _ _ _).2 ⟨ax, a_y, a_t⟩)]
  rw [sx, s_y, s_t]
  simp only [Option.some_bind]
  rw [castUnsigned_natCast (by omega), castUnsigned_natCast (by omega),
    castUnsigned_natCast (by omega)]
  rfl

theorem C3_mirror_equals_direct_in_range_witness :
    smallVideo.getPixelSymmetric ((2 : Nat) : Int) ((1 : Nat) : Int) ((1 : Nat) : Int) 0
        = smallVideo.opCall 2 1 1 0 ∧
    (smallVideo.WellFormed → ∃ a, smallVideo.opCall 2 1 1 0 = some a) :=
  C3_mirror_equals_direct_in_range smallVideo 2 1 1 0 (by decide) (by decide) (by decide)
    (by decide) (by decide) (by decide) (by decide) (by decide)

/-- Two calls of `getPixelSymmetric` that both pass the assertion and whose
first coordinates symmetrise to the same value return the same result. -/
theorem getPixelSymmetric_congr_x {α : Type} (v : Video α) (x x2 y t : Int) (c : Nat)
    (h1 : symAssert v.sz x y t = some true) (h2 : symAssert1 v.sz.width x2 = some true)
    (hs : symmetrize v.sz.width x = symmetrize v.sz.width x2) :
    v.getPixelSymmetric x y t c = v.getPixelSymmetric x2 y t c := by
  obtain ⟨_, a2, a3⟩ := (symAssert_true_iff _ _ _ _).1 h1
  rw [getPixelSymmetric_of_pre v x y t c h1,
    getPixelSymmetric_of_pre v x2 y t c ((symAssert_true_iff _ _ _ _).2 ⟨h2, a2, a3⟩), hs]

theorem getPixelSymmetric_congr_y {α : Type} (v : Video α) (x y y2 t : Int) (c : Nat)
    (h1 : symAssert v.sz x y t = some true) (h2 : symAssert1 v.sz.height y2 = some true)
    (hs : symmetrize v.sz.height y = symmetrize v.sz.height y2) :
    v.getPixelSymmetric x y t c = v.getPixelSymmetric x y2 t c := by
  obtain ⟨a1, _, a3⟩ := (symAssert_true_iff _ _ _ _).1 h1
  rw [getPixelSymmetric_of_pre v x y t c h1,
    getPixelSymmetric_of_pre v x y2 t c ((symAssert_true_iff _ _ _ _).2 ⟨a1, h2, a3⟩), hs]

theorem getPixelSymmetric_congr_t {α : Type} (v : Video α) (x y t t2 : Int) (c : Nat)
    (h1 : symAssert v.sz x y t = some true) (h2 : symAssert1 v.sz.frames t2 = some true)
    (hs : symmetrize v.sz.frames t = symmetrize v.sz.frames t2) :
    v.getPixelSymmetric x y t c = v.getPixelSymmetric x y t2 c := by
  obtain ⟨a1, a2, _⟩ := (symAssert_true_iff _ _ _ _).1 h1
  rw [getPixelSymmetric_of_pre v x y t c h1,
    getPixelSymmetric_of_pre v x y t2 c ((symAssert_true_iff _ _ _ _).2 ⟨a1, a2, h2⟩), hs]

/-- Below the lower edge: `-1` and `1` pass the assertion together and
symmetrise to the same coordinate. -/
theorem sym_low_edge {n : Nat} (h : symAssert1 n (-1) = some true) :
    symAssert1 n 1 = some true ∧ symmetrize n (-1) = symmetrize n 1 := by
  obtain ⟨h1, h2, h3⟩ := (symAssert1_true_iff n (-1)).1 h
  have p : castInt n < 1073741824 ∧ -(castInt n) < 1 ∧ (1 : Int) < 2 * castInt n - 1 := by
    omega
  refine ⟨(symAssert1_true_iff n 1).2 p, ?_⟩
  rw [symmetrize_of_pre h1 h2 h3, symmetrize_of_pre p.1 p.2.1 p.2.2]
  have e1 : ¬ ((1 : Int) < 0) := by omega
  have e2 : ¬ ((1 : Int) ≥ castInt n) := by omega
  rw [if_pos (by omega), if_neg e1, if_neg e2]
  rfl

/-- Above the upper edge: `(int)n` and `(int)n - 2` pass the assertion together
and symmetrise to the same coordinate. -/
theorem sym_high_edge {n : Nat} (h : symAssert1 n (castInt n) = some true) :
    symAssert1 n (castInt n - 2) = some true ∧
      symmetrize n (castInt n) = symmetrize n (castInt n - 2) := by
  obtain ⟨h1, h2, h3⟩ := (symAssert1_true_iff n (castInt n)).1 h
  have p : castInt n < 1073741824 ∧ -(castInt n) < castInt n - 2 ∧
      castInt n - 2 < 2 * castInt n - 1 := by
    omega
  refine ⟨(symAssert1_true_iff n _).2 p, ?_⟩
  rw [symmetrize_of_pre h1 h2 h3, symmetrize_of_pre p.1 p.2.1 p.2.2]
  have e1 : ¬ (castInt n < 0) := by omega
  have e2 : ¬ (castInt n - 2 < 0) := by omega
  have e3 : ¬ (castInt n - 2 ≥ castInt n) := by omega
  rw [if_neg e1, if_pos (le_refl _), if_neg e2, if_neg e3]
  congr 1
  omega

/-- A dimension on which the assertion passes is positive. -/
theorem pos_of_symAssert1 {n : Nat} {x : Int} (h : symAssert1 n x = some true) : 0 < n := by
  obtain ⟨_, h2, h3⟩ := (symAssert1_true_iff n x).1 h
  rcases Nat.eq_zero_or_pos n with h0 | h0
  · subst h0
    have e : castInt 0 = 0 := by decide
    rw [e] at h2 h3
    omega
  · exact h0

/-- Under the assertion the symmetrised coordinate is an in-range unsigned
coordinate. -/
theorem symmetrize_in_range {n : Nat} {x : Int} (hn : n < 4294967296)
    (h : symAssert1 n x = some true) :
    ∃ r : Nat, r < n ∧ symmetrize n x = some (r : Int) := by
  obtain ⟨h1, h2, h3⟩ := (symAssert1_true_iff n x).1 h
  have hs := symmetrize_of_pre h1 h2 h3
  have hc : castInt n = (n : Int) := by
    unfold castInt at h1 h2 h3 ⊢
    split_ifs at h1 h2 h3 ⊢ with hlt
    · rfl
    · omega
  rw [hc] at hs h1 h2 h3
  by_cases hx : x < 0
  · rw [if_pos hx] at hs
    refine ⟨(-x).toNat, by omega, ?_⟩
    rw [hs, Int.toNat_of_nonneg (by omega)]
  · rw [if_neg hx] at hs
    by_cases hx2 : x ≥ (n : Int)
    · rw [if_pos hx2] at hs
      refine ⟨(2 * (n : Int) - 2 - x).toNat, by omega, ?_⟩
      rw [hs, Int.toNat_of_nonneg (by omega)]
    · rw [if_neg hx2] at hs
      refine ⟨x.toNat, by omega, ?_⟩
      rw [hs, Int.toNat_of_nonneg (by omega)]

/-- In a well-formed video, with the channel in range and the assertion passed,
`getPixelSymmetric` returns an element. -/
theorem getPixelSymmetric_defined {α : Type} (v : Video α) (hwf : v.WellFormed)
    (x y t : Int) {c : Nat} (hc : c < v.sz.channels)
    (hpre : symAssert v.sz x y t = some true) :
    ∃ a, v.getPixelSymmetric x y t c = some a := by
  obtain ⟨a1, a2, a3⟩ := (symAssert_true_iff _ _ _ _).1 hpre
  have hov := hwf.2.1
  have hwpos : 0 < v.sz.width := pos_of_symAssert1 a1
  have hhpos : 0 < v.sz.height := pos_of_symAssert1 a2
  have hfpos : 0 < v.sz.frames := pos_of_symAssert1 a3
  have hcpos : 0 < v.sz.channels := by omega
  have b1 : v.sz.width * v.sz.height ≤ v.sz.width * v.sz.height * v.sz.channels :=
    Nat.le_mul_of_pos_right _ hcpos
  have b2 : v.sz.width * v.sz.height * v.sz.channels
      ≤ v.sz.width * v.sz.height * v.sz.channels * v.sz.frames :=
    Nat.le_mul_of_pos_right _ hfpos
  have b3 : v.sz.width ≤ v.sz.width * v.sz.height := Nat.le_mul_of_pos_right _ hhpos
  have b4 : v.sz.height ≤ v.sz.width * v.sz.height := Nat.le_mul_of_pos_left _ hwpos
  have b5 : v.sz.frames ≤ v.sz.width * v.sz.height * v.sz.channels * v.sz.frames :=
    Nat.le_mul_of_pos_left _ (by omega)
  obtain ⟨rx, hrx, sx⟩ := symmetrize_in_range (by omega) a1
  obtain ⟨ry, hry, s_y⟩ := symmetrize_in_range (by omega) a2
  obtain ⟨rt, hrt, s_t⟩ := symmetrize_in_range (by omega) a3
  rw [getPixelSymmetric_of_pre v x y t c hpre, sx, s_y, s_t]
  simp only [Option.some_bind]
  rw [castUnsigned_natCast (by omega), castUnsigned_natCast (by omega),
    castUnsigned_natCast (by omega)]
  exact opCall_defined v hwf hrx hry hrt hc

/-- C4: whenever the out-of-range call passes the assertion of
`getPixelSymmetric`, `getPixelSymmetric(-1, y, t, c)` equals
`getPixelSymmetric(1, y, t, c)` and `getPixelSymmetric(width, y, t, c)` equals
`getPixelSymmetric(width-2, y, t, c)`, and likewise for `y` with `height` and
for `t` with `frames`; in a well-formed video with `c` in range every call that
passes the assertion returns an element. -/
theorem C4_mirror_symmetric_at_boundary {α : Type} (v : Video α) (x y t : Int) (c : Nat) :
    (symAssert v.sz (-1) y t = some true →
      v.getPixelSymmetric (-1) y t c = v.getPixelSymmetric 1 y t c) ∧
    (symAssert v.sz (castInt v.sz.width) y t = some true →
      v.getPixelSymmetric (castInt v.sz.width) y t c
        = v.getPixelSymmetric (castInt v.sz.width - 2) y t c) ∧
    (symAssert v.sz x (-1) t = some true →
      v.getPixelSymmetric x (-1) t c = v.getPixelSymmetric x 1 t c) ∧
    (symAssert v.sz x (castInt v.sz.height) t = some true →
      v.getPixelSymmetric x (castInt v.sz.height) t c
        = v.getPixelSymmetric x (castInt v.sz.height - 2) t c) ∧
    (symAssert v.sz x y (-1) = some true →
      v.getPixelSymmetric x y (-1) c = v.getPixelSymmetric x y 1 c) ∧
    (symAssert v.sz x y (castInt v.sz.frames) = some true →
      v.getPixelSymmetric x y (castInt v.sz.frames) c
        = v.getPixelSymmetric x y (castInt v.sz.frames - 2) c) ∧
    (v.WellFormed → c < v.sz.channels → symAssert v.sz x y t = some true →
      ∃ a, v.getPixelSymmetric x y t c = some a) := by
  refine ⟨?_, ?_, ?_, ?_, ?_, ?_, fun hwf hc hpre => getPixelSymmetric_defined v hwf x y t hc hpre⟩
  · intro h
    obtain ⟨a, e⟩ := sym_low_edge ((symAssert_true_iff _ _ _ _).1 h).1
    exact getPixelSymmetric_congr_x v _ _ y t c h a e
  · intro h
    obtain ⟨a, e⟩ := sym_high_edge ((symAssert_true_iff _ _ _ _).1 h).1
    exact getPixelSymmetric_congr_x v _ _ y t c h a e
  · intro h
    obtain ⟨a, e⟩ := sym_low_edge ((symAssert_true_iff _ _ _ _).1 h).2.1
    exact getPixelSymmetric_congr_y v x _ _ t c h a e
  · intro h
    obtain ⟨a, e⟩ := sym_high_edge ((symAssert_true_iff _ _ _ _).1 h).2.1
    exact getPixelSymmetric_congr_y v x _ _ t c h a e
  · intro h
    obtain ⟨a, e⟩ := sym_low_edge ((symAssert_true_iff _ _ _ _).1 h).2.2
    exact getPixelSymmetric_congr_t v x y _ _ c h a e
  · intro h
    obtain ⟨a, e⟩ := sym_high_edge ((symAssert_true_iff _ _ _ _).1 h).2.2
    exact getPixelSymmetric_congr_t v x y _ _ c h a e

theorem C4_mirror_symmetric_at_boundary_witness :
    (smallVideo.getPixelSymmetric (-1) 1 1 0 = smallVideo.getPixelSymmetric 1 1 1 0 ∧
      smallVideo.getPixelSymmetric 1 1 1 0 = some 10) ∧
    (smallVideo.getPixelSymmetric (castInt smallVideo.sz.width) 1 1 0
        = smallVideo.getPixelSymmetric (castInt smallVideo.sz.width - 2) 1 1 0 ∧
      smallVideo.getPixelSymmetric (castInt smallVideo.sz.width - 2) 1 1 0 = some 10) ∧
    smallVideo.getPixelSymmetric 1 (-1) 1 0 = smallVideo.getPixelSymmetric 1 1 1 0 ∧
    smallVideo.getPixelSymmetric 1 (castInt smallVideo.sz.height) 1 0
        = smallVideo.getPixelSymmetric 1 (castInt smallVideo.sz.height - 2) 1 0 ∧
    smallVideo.getPixelSymmetric 1 1 (-1) 0 = smallVideo.getPixelSymmetric 1 1 1 0 ∧
    smallVideo.getPixelSymmetric 1 1 (castInt smallVideo.sz.frames) 0
        = smallVideo.getPixelSymmetric 1 1 (castInt smallVideo.sz.frames - 2) 0 ∧
    (∃ a, smallVideo.getPixelSymmetric 1 1 1 0 = some a) :=
  ⟨⟨(C4_mirror_symmetric_at_boundary smallVideo 1 1 1 0).1 (by decide), by decide⟩,
    ⟨(C4_mirror_symmetric_at_boundary smallVideo 1 1 1 0).2.1 (by decide), by decide⟩,
    (C4_mirror_symmetric_at_boundary smallVideo 1 1 1 0).2.2.1 (by decide),
    (C4_mirror_symmetric_at_boundary smallVideo 1 1 1 0).2.2.2.1 (by decide),
    (C4_mirror_symmetric_at_boundary smallVideo 1 1 1 0).2.2.2.2.1 (by decide),
    (C4_mirror_symmetric_at_boundary smallVideo 1 1 1 0).2.2.2.2.2.1 (by decide),
    (C4_mirror_symmetric_at_boundary smallVideo 1 1 1 0).2.2.2.2.2.2 (by decide) (by decide)
      (by decide)⟩

/-! ### Construction, `clear` and `resize` -/

theorem neOp_eq_false_iff (a b : VideoSize) :
    VideoSize.neOp a b = false ↔
      a.width = b.width ∧ a.height = b.height ∧ a.frames = b.frames ∧
        a.channels = b.channels := by
  simp only [VideoSize.neOp, VideoSize.eqOp, Bool.not_eq_false_eq_eq_true, Bool.and_eq_true,
    beq_iff_eq]
  constructor
  · rintro ⟨⟨⟨h1, h2⟩, h3⟩, h4⟩; exact ⟨h1, h2, h4, h3⟩
  · rintro ⟨h1, h2, h4, h3⟩; exact ⟨⟨⟨h1, h2⟩, h3⟩, h4⟩

theorem vectorResize_nil {α : Type} [Inhabited α] (n : Nat) :
    vectorResize ([] : List α) n = List.replicate n default := by
  simp [vectorResize]

/-- The two outcomes of `resize`. -/
theorem resize_eq {α : Type} [Inhabited α] (v : Video α) (e : VideoSize) :
    v.resize e =
      if v.sz.width = e.width ∧ v.sz.height = e.height ∧ v.sz.frames = e.frames ∧
          v.sz.channels = e.channels then v
      else Video.mk e (List.replicate e.whcf default) := by
  unfold Video.resize
  by_cases h : VideoSize.neOp v.sz e = false
  · rw [if_pos ((neOp_eq_false_iff _ _).1 h), h]
    rfl
  · have h2 : VideoSize.neOp v.sz e = true := by
      cases hb : VideoSize.neOp v.sz e
      · exact absurd hb h
      · rfl
    rw [if_neg (fun hc => h ((neOp_eq_false_iff _ _).2 hc)), h2, if_pos rfl]
    show Video.mk e (vectorResize [] e.whcf) = _
    rw [vectorResize_nil]

/-- C5: for an extent `e` built by the `VideoSize` constructor, `resize(e)`
leaves the video unchanged when `e` has the width, height, frames and channels
of `v.sz`; otherwise afterwards `v.sz` equals `e`, `v.data` has length `e.whcf`
and every element of `v.data` is the default value, whatever `v` held. -/
theorem C5_resize_same_or_wipe {α : Type} [Inhabited α] (v : Video α) (w h f c : Nat) :
    (v.sz.width = w ∧ v.sz.height = h ∧ v.sz.frames = f ∧ v.sz.channels = c →
      (v.resize (VideoSize.ctor w h f c)).sz = v.sz ∧
      (v.resize (VideoSize.ctor w h f c)).data = v.data) ∧
    (¬ (v.sz.width = w ∧ v.sz.height = h ∧ v.sz.frames = f ∧ v.sz.channels = c) →
      (v.resize (VideoSize.ctor w h f c)).sz = VideoSize.ctor w h f c ∧
      (v.resize (VideoSize.ctor w h f c)).data.length = (VideoSize.ctor w h f c).whcf ∧
      ∀ i, i < (VideoSize.ctor w h f c).whcf →
        (v.resize (VideoSize.ctor w h f c)).data[i]? = some default) := by
  rw [resize_eq]
  simp only [ctor_width, ctor_height, ctor_frames, ctor_channels]
  constructor
  · intro hs
    rw [if_pos hs]
    exact ⟨rfl, rfl⟩
  · intro hs
    rw [if_neg hs]
    refine ⟨rfl, List.length_replicate _ _, ?_⟩
    intro i hi
    show (List.replicate _ _)[i]? = _
    rw [List.getElem?_replicate, if_pos hi]

theorem C5_resize_same_or_wipe_witness :
    ((smallVideo.resize (VideoSize.ctor 3 2 2 1)).sz = smallVideo.sz ∧
      (smallVideo.resize (VideoSize.ctor 3 2 2 1)).data = smallVideo.data) ∧
    ((smallVideo.resize (VideoSize.ctor 2 1 1 1)).sz = VideoSize.ctor 2 1 1 1 ∧
      (smallVideo.resize (VideoSize.ctor 2 1 1 1)).data.length = (VideoSize.ctor 2 1 1 1).whcf ∧
      ∀ i, i < (VideoSize.ctor 2 1 1 1).whcf →
        (smallVideo.resize (VideoSize.ctor 2 1 1 1)).data[i]? = some default) :=
  ⟨(C5_resize_same_or_wipe smallVideo 3 2 2 1).1 (by decide),
    (C5_resize_same_or_wipe smallVideo 2 1 1 1).2 (by decide)⟩

/-- C6: `data.size() == sz.whcf` holds after the empty constructor, the copy
constructor of a video satisfying it, the dimension constructors (with or
without fill value) and the `VideoSize` constructors, and is preserved by
`clear()` and by both `resize` overloads, for extents built by the
`VideoSize` constructor. -/
theorem C6_length_invariant {α : Type} [Inhabited α] :
    (Video.ctorVoid : Video α).Inv ∧
    (∀ v : Video α, v.Inv → (Video.ctorCopy v).Inv) ∧
    (∀ w h f c, (Video.ctorDims w h f c : Video α).Inv) ∧
    (∀ w h f c (val : α), (Video.ctorDimsVal w h f c val).Inv) ∧
    (∀ w h f c, (Video.ctorSize (VideoSize.ctor w h f c) : Video α).Inv) ∧
    (∀ w h f c (val : α), (Video.ctorSizeVal (VideoSize.ctor w h f c) val).Inv) ∧
    (∀ v : Video α, v.Inv → (Video.clear v).Inv) ∧
    (∀ (v : Video α) w h f c, v.Inv → (v.resize (VideoSize.ctor w h f c)).Inv) ∧
    (∀ (v : Video α) w h f c, v.Inv → (v.resizeDims w h f c).Inv) := by
  have hres : ∀ (v : Video α) (e : VideoSize), v.Inv → (v.resize e).Inv := by
    intro v e hv
    rw [resize_eq]
    split_ifs
    · exact hv
    · exact List.length_replicate _ _
  refine ⟨?_, ?_, ?_, ?_, ?_, ?_, ?_, ?_, ?_⟩
  · show (List.replicate 0 (default : α)).length = VideoSize.ctorVoid.whcf
    rw [List.length_replicate]
    decide
  · intro v hv; exact hv
  · intro w h f c; exact List.length_replicate _ _
  · intro w h f c val; exact List.length_replicate _ _
  · intro w h f c; exact List.length_replicate _ _
  · intro w h f c val; exact List.length_replicate _ _
  · intro v _
    show ([] : List α).length = (VideoSize.update_fields _).whcf
    simp [VideoSize.update_fields]
  · intro v w h f c hv; exact hres v _ hv
  · intro v w h f c hv; exact hres v _ hv

theorem C6_length_invariant_witness :
    (Video.ctorVoid : Video Nat).Inv ∧ (Video.ctorCopy smallVideo).Inv ∧
    (Video.ctorDims 3 2 2 1 : Video Nat).Inv ∧ (Video.clear smallVideo).Inv ∧
    (smallVideo.resize (VideoSize.ctor 2 1 1 1)).Inv ∧
    (smallVideo.resizeDims 3 2 2 1).Inv :=
  ⟨C6_length_invariant.1, C6_length_invariant.2.1 smallVideo (by decide),
    C6_length_invariant.2.2.1 3 2 2 1,
    C6_length_invariant.2.2.2.2.2.2.1 smallVideo (by decide),
    C6_length_invariant.2.2.2.2.2.2.2.1 smallVideo 2 1 1 1 (by decide),
    C6_length_invariant.2.2.2.2.2.2.2.2 smallVideo 3 2 2 1 (by decide)⟩

/-! ### Counted loops -/

/-- Invariant rule for a counted loop started at `i`. -/
theorem forFrom_inv {σ : Type} (body : Nat → σ → Option σ) (P : Nat → σ → Prop) :
    ∀ (k i : Nat) (s : σ), P i s →
      (∀ j s1, i ≤ j → j < i + k → P j s1 → ∃ s2, body j s1 = some s2 ∧ P (j + 1) s2) →
      ∃ s2, forFrom body i k s = some s2 ∧ P (i + k) s2 := by
  intro k
  induction k with
  | zero =>
    intro i s h0 _
    exact ⟨s, rfl, h0⟩
  | succ k ih =>
    intro i s h0 hstep
    obtain ⟨s1, e1, p1⟩ := hstep i s (le_refl _) (by omega) h0
    obtain ⟨s2, e2, p2⟩ := ih (i + 1) s1 p1 (fun j s3 hj1 hj2 hp =>
      hstep j s3 (by omega) (by omega) hp)
    refine ⟨s2, ?_, ?_⟩
    · show (body i s).bind (forFrom body (i + 1) k) = some s2
      rw [e1, Option.some_bind, e2]
    · have e : i + (k + 1) = i + 1 + k := by omega
      rw [e]; exact p2

/-- Invariant rule for `for (i = 0; i < n; ++i)`. -/
theorem forLoop_inv {σ : Type} (n : Nat) (body : Nat → σ → Option σ) (P : Nat → σ → Prop)
    (s : σ) (h0 : P 0 s)
    (hstep : ∀ j s1, j < n → P j s1 → ∃ s2, body j s1 = some s2 ∧ P (j + 1) s2) :
    ∃ s2, forLoop n body s = some s2 ∧ P n s2 := by
  obtain ⟨s2, e, p⟩ := forFrom_inv body P n 0 s h0 (fun j s1 _ hj hp =>
    hstep j s1 (by omega) hp)
  refine ⟨s2, e, ?_⟩
  rw [Nat.zero_add] at p
  exact p

/-- A loop whose first iteration does not return normally does not either. -/
theorem forLoop_first_none {σ : Type} (n : Nat) (body : Nat → σ → Option σ) (s : σ)
    (hn : 0 < n) (h : body 0 s = none) : forLoop n body s = none := by
  obtain ⟨m, rfl⟩ : ∃ m, n = m + 1 := ⟨n - 1, by omega⟩
  show (body 0 s).bind (forFrom body (0 + 1) m) = none
  rw [h]; rfl

/-- Invariant rule for the four nested loops over frames, rows, columns and
channels: the invariant is indexed by the number of completed innermost
iterations. -/
theorem nest4_inv {σ : Type} (F H W C : Nat) (b : Nat → Nat → Nat → Nat → σ → Option σ)
    (Q : Nat → σ → Prop)
    (step : ∀ k j i c s, k < F → j < H → i < W → c < C →
      Q (((k * H + j) * W + i) * C + c) s →
      ∃ s2, b k j i c s = some s2 ∧ Q (((k * H + j) * W + i) * C + c + 1) s2)
    (s : σ) (h0 : Q 0 s) :
    ∃ s2, forLoop F (fun k => forLoop H (fun j => forLoop W (fun i =>
        forLoop C (fun c => b k j i c)))) s = some s2 ∧ Q (F * H * W * C) s2 := by
  have lc : ∀ k j i s1, k < F → j < H → i < W → Q (((k * H + j) * W + i) * C) s1 →
      ∃ s2, forLoop C (fun c => b k j i c) s1 = some s2 ∧
        Q (((k * H + j) * W + (i + 1)) * C) s2 := by
    intro k j i s1 hk hj hi hq
    obtain ⟨s2, e, p⟩ := forLoop_inv C (fun c => b k j i c)
      (fun c => Q (((k * H + j) * W + i) * C + c)) s1 hq
      (fun c s3 hc hp => step k j i c s3 hk hj hi hc hp)
    refine ⟨s2, e, ?_⟩
    have e2 : ((k * H + j) * W + (i + 1)) * C = ((k * H + j) * W + i) * C + C := by ring
    rw [e2]; exact p
  have li : ∀ k j s1, k < F → j < H → Q ((k * H + j) * W * C) s1 →
      ∃ s2, forLoop W (fun i => forLoop C (fun c => b k j i c)) s1 = some s2 ∧
        Q ((k * H + (j + 1)) * W * C) s2 := by
    intro k j s1 hk hj hq
    obtain ⟨s2, e, p⟩ := forLoop_inv W (fun i => forLoop C (fun c => b k j i c))
      (fun i => Q (((k * H + j) * W + i) * C)) s1 (by simpa using hq)
      (fun i s3 hi hp => lc k j i s3 hk hj hi hp)
    refine ⟨s2, e, ?_⟩
    have e2 : (k * H + (j + 1)) * W * C = ((k * H + j) * W + W) * C := by ring
    rw [e2]; exact p
  have lj : ∀ k s1, k < F → Q (k * H * W * C) s1 →
      ∃ s2, forLoop H (fun j => forLoop W (fun i => forLoop C (fun c => b k j i c))) s1
          = some s2 ∧ Q ((k + 1) * H * W * C) s2 := by
    intro k s1 hk hq
    obtain ⟨s2, e, p⟩ := forLoop_inv H
      (fun j => forLoop W (fun i => forLoop C (fun c => b k j i c)))
      (fun j => Q ((k * H + j) * W * C)) s1 (by simpa using hq)
      (fun j s3 hj hp => li k j s3 hk hj hp)
    refine ⟨s2, e, ?_⟩
    have e2 : (k + 1) * H * W * C = (k * H + H) * W * C := by ring
    rw [e2]; exact p
  exact forLoop_inv F _ (fun k => Q (k * H * W * C)) s (by simpa using h0)
    (fun k s3 hk hp => lj k s3 hk hp)

/-- The linear position `((k*H + j)*W + i)*C + c` determines an in-range
`(k, j, i, c)`. -/
theorem lin_inj {H W C k j i c k2 j2 i2 c2 : Nat}
    (hj : j < H) (hi : i < W) (hc : c < C) (hj2 : j2 < H) (hi2 : i2 < W) (hc2 : c2 < C)
    (h : ((k * H + j) * W + i) * C + c = ((k2 * H + j2) * W + i2) * C + c2) :
    k = k2 ∧ j = j2 ∧ i = i2 ∧ c = c2 := by
  have c1 : c = c2 := by
    have := congrArg (fun n => n % C) h
    simp only [mixed_mod hc, mixed_mod hc2] at this
    exact this
  have r1 : (k * H + j) * W + i = (k2 * H + j2) * W + i2 := by
    have := congrArg (fun n => n / C) h
    simp only [mixed_div hc, mixed_div hc2] at this
    exact this
  have i1 : i = i2 := by
    have := congrArg (fun n => n % W) r1
    simp only [mixed_mod hi, mixed_mod hi2] at this
    exact this
  have r2 : k * H + j = k2 * H + j2 := by
    have := congrArg (fun n => n / W) r1
    simp only [mixed_div hi, mixed_div hi2] at this
    exact this
  have j1 : j = j2 := by
    have := congrArg (fun n => n % H) r2
    simp only [mixed_mod hj, mixed_mod hj2] at this
    exact this
  have k1 : k = k2 := by
    have := congrArg (fun n => n / H) r2
    simp only [mixed_div hj, mixed_div hj2] at this
    exact this
  exact ⟨k1, j1, i1, c1⟩

/-- The linear position of an in-range `(k, j, i, c)` lies below `F*H*W*C`. -/
theorem lin_lt {F H W C k j i c : Nat} (hk : k < F) (hj : j < H) (hi : i < W) (hc : c < C) :
    ((k * H + j) * W + i) * C + c < F * H * W * C := by
  have a1 : k * H + j < F * H := mixed_lt hk hj
  have a2 : (k * H + j) * W + i < F * H * W := mixed_lt a1 hi
  exact mixed_lt a2 hc



/-! ### The one-channel loop of `read_video` -/

/-- With one channel the frame size and the volume coincide. -/
theorem whf_eq_whcf_of_one_channel (w h f : Nat) :
    (VideoSize.ctor w h f 1).whf = (VideoSize.ctor w h f 1).whcf := by
  simp [VideoSize.ctor, VideoSize.update_fields]

/-- The one-channel loop of `read_video`: it returns normally when the reads
are in range and the `int` counter fits; `pos_I` ends at `3*whf` modulo `2^32`;
as long as `3*whf` does not pass `2^32` the three slots of pixel `i` hold
`data[i]` and the memory from `3*whf` on is untouched. -/
theorem read_video_one_channel {α : Type} (V : Video α) (I : Nat → α)
    (hch : V.sz.channels = 1) (hlen : V.data.length = V.sz.whcf)
    (hwhf : V.sz.whf ≤ V.sz.whcf) (hint : V.sz.whf < 2147483648) :
    ∃ r, read_video V I = some r ∧ r.pos_I = (3 * V.sz.whf) % 4294967296 ∧
      (3 * V.sz.whf ≤ 4294967296 →
        (∀ i k, i < V.sz.whf → k < 3 → V.opCallIdx i = some (r.I (3 * i + k))) ∧
        (∀ q, 3 * V.sz.whf ≤ q → r.I q = I q)) := by
  have hread : ∀ i, i < V.sz.whf → ∃ a, V.opCallIdx i = some a ∧ V.data[i]? = some a := by
    intro i hi
    have hi2 : i < V.data.length := by omega
    refine ⟨V.data[i], ?_, List.getElem?_eq_getElem hi2⟩
    unfold Video.opCallIdx
    rw [if_pos (by omega), List.getElem?_eq_getElem hi2]
  have hrun := forLoop_inv V.sz.whf (read_video_body1 V)
    (fun n s => s.pos_I = (3 * n) % 4294967296 ∧
      (3 * n ≤ 4294967296 →
        (∀ i k, i < n → k < 3 → V.opCallIdx i = some (s.I (3 * i + k))) ∧
        (∀ q, 3 * n ≤ q → s.I q = I q)))
    (CopyState.mk I 0) ⟨rfl, fun _ => ⟨fun i k hi _ => absurd hi (by omega), fun _ _ => rfl⟩⟩
    (by
      intro j s1 hj ⟨hp, hcont⟩
      obtain ⟨a, ha, _⟩ := hread j hj
      refine ⟨CopyState.mk
        (Function.update (Function.update (Function.update s1.I
          ((s1.pos_I + 0) % 4294967296) a) ((s1.pos_I + 1) % 4294967296) a)
          ((s1.pos_I + 2) % 4294967296) a) ((s1.pos_I + 3) % 4294967296), ?_, ?_, ?_⟩
      · unfold read_video_body1
        rw [ha, int32_of_range (by omega) (by omega)]
        rfl
      · show (s1.pos_I + 3) % 4294967296 = 3 * (j + 1) % 4294967296
        rw [hp]; omega
      · intro hle
        obtain ⟨hv, hfr⟩ := hcont (by omega)
        have hpj : s1.pos_I = 3 * j := by rw [hp]; omega
        have e0 : (s1.pos_I + 0) % 4294967296 = 3 * j := by omega
        have e1 : (s1.pos_I + 1) % 4294967296 = 3 * j + 1 := by omega
        have e2 : (s1.pos_I + 2) % 4294967296 = 3 * j + 2 := by omega
        show (∀ i k, i < j + 1 → k < 3 → V.opCallIdx i = some
            (Function.update (Function.update (Function.update s1.I
              ((s1.pos_I + 0) % 4294967296) a) ((s1.pos_I + 1) % 4294967296) a)
              ((s1.pos_I + 2) % 4294967296) a (3 * i + k))) ∧
          (∀ q, 3 * (j + 1) ≤ q →
            Function.update (Function.update (Function.update s1.I
              ((s1.pos_I + 0) % 4294967296) a) ((s1.pos_I + 1) % 4294967296) a)
              ((s1.pos_I + 2) % 4294967296) a q = I q)
        rw [e0, e1, e2]
        constructor
        · intro i k hi hk
          by_cases hij : i = j
          · subst hij
            rw [ha]
            have hk3 : k = 0 ∨ k = 1 ∨ k = 2 := by omega
            rcases hk3 with rfl | rfl | rfl <;> simp [Function.update_apply]
          · have hlt : i < j := by omega
            rw [hv i k hlt hk]
            have n0 : 3 * i + k ≠ 3 * j := by omega
            have n1 : 3 * i + k ≠ 3 * j + 1 := by omega
            have n2 : 3 * i + k ≠ 3 * j + 2 := by omega
            simp [Function.update_apply, n0, n1, n2]
        · intro q hq
          have n0 : q ≠ 3 * j := by omega
          have n1 : q ≠ 3 * j + 1 := by omega
          have n2 : q ≠ 3 * j + 2 := by omega
          simp only [Function.update_apply, n0, n1, n2, if_false]
          exact hfr q (by omega))
  obtain ⟨r, hr, hp, hcont⟩ := hrun
  refine ⟨r, ?_, hp, hcont⟩
  unfold read_video
  have hne : ¬ (V.sz.channels ≠ 1 ∧ V.sz.channels ≠ 3) := fun h => h.1 hch
  rw [if_neg hne, if_pos hch]
  exact hr

/-- C7 (counterexample): the one-channel video built by
`Video(1431655766, 1, 1, 1, 0)` has `data.size() == sz.whcf` and
`3*whf = 4294967298`, and `read_video` returns `2`: the unsigned `pos_I` wraps. -/
theorem C7_counterexample_pos_wraps :
    longVideo.sz = VideoSize.ctor 1431655766 1 1 1 ∧
    longVideo.sz.channels = 1 ∧ longVideo.data.length = longVideo.sz.whcf ∧
    3 * longVideo.sz.whf = 4294967298 ∧
    ∃ r, read_video longVideo (fun _ => 0) = some r ∧ r.pos_I = 2 := by
  have hsz : longVideo.sz = VideoSize.mk 1431655766 1 1 1 1431655766 1431655766
      1431655766 1431655766 := by decide
  have hdata : longVideo.data = List.replicate 1431655766 0 := by
    show List.replicate (VideoSize.ctor 1431655766 1 1 1).whcf 0 = _
    rw [show (VideoSize.ctor 1431655766 1 1 1).whcf = 1431655766 by decide]
  have hlen : longVideo.data.length = longVideo.sz.whcf := by
    rw [hdata, hsz, List.length_replicate]
  have hch : longVideo.sz.channels = 1 := by rw [hsz]
  have hwhf : longVideo.sz.whf = 1431655766 := by rw [hsz]
  have hwhcf : longVideo.sz.whcf = 1431655766 := by rw [hsz]
  obtain ⟨r, hr, hp, _⟩ := read_video_one_channel longVideo (fun _ => 0) hch hlen
    (by rw [hwhf, hwhcf]) (by rw [hwhf]; omega)
  refine ⟨rfl, hch, hlen, by rw [hwhf], r, hr, ?_⟩
  rw [hp, hwhf]

/-- C7 (amended): for a one-channel video with current derived fields,
`data.size() == sz.whcf` and `3*whf < 2^32`, `read_video` returns normally,
every `I[3*i + k]` with `i < whf`, `k < 3` equals `V(i)`, and the returned
value is `3*whf`; when `width*height*frames` does not overflow, pixel
`(x, y, t)` lands at `3*((t*height + y)*width + x) + k` (frame-major, then
row, then column). -/
theorem C7_one_channel_broadcast {α : Type} (V : Video α) (I : Nat → α)
    (hsz : V.sz = VideoSize.ctor V.sz.width V.sz.height V.sz.frames V.sz.channels)
    (hch : V.sz.channels = 1) (hlen : V.data.length = V.sz.whcf)
    (h3 : 3 * V.sz.whf < 4294967296) :
    ∃ r, read_video V I = some r ∧
      (∀ i k, i < V.sz.whf → k < 3 → V.opCallIdx i = some (r.I (3 * i + k))) ∧
      r.pos_I = 3 * V.sz.whf ∧
      (V.sz.width * V.sz.height * V.sz.frames < 4294967296 →
        ∀ x y t k, x < V.sz.width → y < V.sz.height → t < V.sz.frames → k < 3 →
          V.opCall x y t 0
            = some (r.I (3 * ((t * V.sz.height + y) * V.sz.width + x) + k))) := by
  have hsz1 : V.sz = VideoSize.ctor V.sz.width V.sz.height V.sz.frames 1 := by
    rw [← hch]; exact hsz
  have heq : V.sz.whf = V.sz.whcf := by
    rw [hsz1]; exact whf_eq_whcf_of_one_channel _ _ _
  obtain ⟨r, hr, hp, hcont⟩ := read_video_one_channel V I hch hlen (by omega) (by omega)
  obtain ⟨hv, _⟩ := hcont (by omega)
  refine ⟨r, hr, hv, by rw [hp]; omega, ?_⟩
  intro hprod x y t k hx hy ht hk
  have hov : V.sz.width * V.sz.height * V.sz.channels * V.sz.frames < 4294967296 := by
    rw [hch, Nat.mul_one]; exact hprod
  have hvol : V.sz.whcf = V.sz.width * V.sz.height * V.sz.channels * V.sz.frames := by
    conv_lhs => rw [hsz]
    exact whcf_ctor hov
  have hc0 : 0 < V.sz.channels := by omega
  have hi := index_ctor hov hx hy ht hc0
  rw [← hsz] at hi
  have hlt := pos_lt hx hy ht hc0
  have e : t * (V.sz.width * V.sz.height * V.sz.channels) + 0 * (V.sz.width * V.sz.height)
      + y * V.sz.width + x = (t * V.sz.height + y) * V.sz.width + x := by
    rw [hch]; ring
  rw [e] at hi hlt
  rw [← hv ((t * V.sz.height + y) * V.sz.width + x) k (by omega) hk]
  unfold Video.opCall Video.opCallIdx
  rw [hi, Option.some_bind, if_pos (by omega)]

theorem C7_one_channel_broadcast_witness :
    ∃ r, read_video grayVideo (fun _ => 0) = some r ∧
      (∀ i k, i < grayVideo.sz.whf → k < 3 → grayVideo.opCallIdx i = some (r.I (3 * i + k))) ∧
      r.pos_I = 3 * grayVideo.sz.whf ∧
      (grayVideo.sz.width * grayVideo.sz.height * grayVideo.sz.frames < 4294967296 →
        ∀ x y t k, x < grayVideo.sz.width → y < grayVideo.sz.height →
          t < grayVideo.sz.frames → k < 3 →
          grayVideo.opCall x y t 0
            = some (r.I (3 * ((t * grayVideo.sz.height + y) * grayVideo.sz.width + x) + k))) :=
  C7_one_channel_broadcast grayVideo (fun _ => 0) (by decide) (by decide) (by decide)
    (by decide)

/-- C9: for a loaded video whose channel count is neither 1 nor 3,
`read_video` returns 0 and leaves every element of `I` unchanged. -/
theorem C9_rejects_other_channel_counts {α : Type} (input : Video α) (I : Nat → α)
    (h1 : input.sz.channels ≠ 1) (h3 : input.sz.channels ≠ 3) :
    ∃ r, read_video input I = some r ∧ r.pos_I = 0 ∧ ∀ q, r.I q = I q := by
  refine ⟨CopyState.mk I 0, ?_, rfl, fun _ => rfl⟩
  unfold read_video
  rw [if_pos ⟨h1, h3⟩]

theorem C9_rejects_other_channel_counts_witness :
    ∃ r, read_video twoChannelVideo (fun _ => 7) = some r ∧ r.pos_I = 0 ∧
      ∀ q, r.I q = (fun _ => 7) q :=
  C9_rejects_other_channel_counts twoChannelVideo (fun _ => 7) (by decide) (by decide)

/-! ### The nested loops of `read_video` and `write_video` -/

/-- The three-channel loops of `read_video` on a well-formed video: they
return normally, `pos_I` ends at the number of samples, sample `(i, j, k, c)`
lands at `((k*height + j)*width + i)*channels + c`, and the memory beyond is
untouched. -/
theorem read_video_loops {α : Type} (V : Video α) (I : Nat → α) (hwf : V.WellFormed) :
    ∃ r, forLoop V.sz.frames (fun k => forLoop V.sz.height (fun j =>
        forLoop V.sz.width (fun i => forLoop V.sz.channels (fun c =>
          read_video_body3 V k j i c)))) (CopyState.mk I 0) = some r ∧
      r.pos_I = V.sz.frames * V.sz.height * V.sz.width * V.sz.channels ∧
      (∀ k j i c, k < V.sz.frames → j < V.sz.height → i < V.sz.width → c < V.sz.channels →
        V.opCall i j k c
          = some (r.I (((k * V.sz.height + j) * V.sz.width + i) * V.sz.channels + c))) ∧
      (∀ q, V.sz.frames * V.sz.height * V.sz.width * V.sz.channels ≤ q → r.I q = I q) := by
  have hov := hwf.2.1
  have hN : V.sz.frames * V.sz.height * V.sz.width * V.sz.channels
      = V.sz.width * V.sz.height * V.sz.channels * V.sz.frames := by ring
  obtain ⟨r, hr, hq⟩ := nest4_inv V.sz.frames V.sz.height V.sz.width V.sz.channels
    (fun k j i c => read_video_body3 V k j i c)
    (fun p s => s.pos_I = p ∧
      (∀ k j i c, k < V.sz.frames → j < V.sz.height → i < V.sz.width → c < V.sz.channels →
        ((k * V.sz.height + j) * V.sz.width + i) * V.sz.channels + c < p →
        V.opCall i j k c
          = some (s.I (((k * V.sz.height + j) * V.sz.width + i) * V.sz.channels + c))) ∧
      (∀ q, p ≤ q → s.I q = I q))
    (by
      intro k j i c s hk hj hi hc ⟨hp, hv, hfr⟩
      obtain ⟨a, ha⟩ := opCall_defined V hwf hi hj hk hc
      have hlt := lin_lt hk hj hi hc
      refine ⟨CopyState.mk (Function.update s.I s.pos_I a) ((s.pos_I + 1) % 4294967296),
        ?_, ?_, ?_, ?_⟩
      · show read_video_body3 V k j i c s = _
        unfold read_video_body3
        rw [ha]
        rfl
      · show (s.pos_I + 1) % 4294967296 = _
        rw [hp]; omega
      · intro k2 j2 i2 c2 hk2 hj2 hi2 hc2 hlt2
        show V.opCall i2 j2 k2 c2 = some (Function.update s.I s.pos_I a _)
        by_cases e : ((k2 * V.sz.height + j2) * V.sz.width + i2) * V.sz.channels + c2
            = ((k * V.sz.height + j) * V.sz.width + i) * V.sz.channels + c
        · obtain ⟨rfl, rfl, rfl, rfl⟩ := lin_inj hj2 hi2 hc2 hj hi hc e
          rw [ha, hp, Function.update_same]
        · rw [Function.update_noteq (by rw [hp]; exact e)]
          exact hv k2 j2 i2 c2 hk2 hj2 hi2 hc2 (by omega)
      · intro q hq
        show Function.update s.I s.pos_I a q = I q
        rw [Function.update_noteq (by omega)]
        exact hfr q (by omega))
    (CopyState.mk I 0)
    ⟨rfl, fun _ _ _ _ _ _ _ _ hlt => absurd hlt (by omega), fun _ _ => rfl⟩
  obtain ⟨hp, hv, hfr⟩ := hq
  exact ⟨r, hr, hp, fun k j i c hk hj hi hc => hv k j i c hk hj hi hc (lin_lt hk hj hi hc), hfr⟩

/-- The loops of `write_video` on a fresh video whose volume does not overflow:
they return normally, the size is unchanged, the vector keeps its length and
sample `(i, j, k, c)` holds `I[((k*height + j)*width + i)*channels + c]`. -/
theorem write_video_loops {α : Type} [Inhabited α] (I : Nat → α) (w h f c : Nat)
    (hov : w * h * c * f < 4294967296) :
    ∃ ws, forLoop f (fun k => forLoop h (fun j => forLoop w (fun i => forLoop c (fun cc =>
          write_video_body I k j i cc)))) (WriteState.mk (Video.ctorDims w h f c) 0) = some ws ∧
      ws.pos_I = f * h * w * c ∧
      ws.output.sz = VideoSize.ctor w h f c ∧
      ws.output.data.length = w * h * c * f ∧
      (∀ k j i cc, k < f → j < h → i < w → cc < c →
        ws.output.opCall i j k cc = some (I (((k * h + j) * w + i) * c + cc))) := by
  have hN : f * h * w * c = w * h * c * f := by ring
  obtain ⟨ws, hr, hq⟩ := nest4_inv f h w c (fun k j i cc => write_video_body I k j i cc)
    (fun p s => s.pos_I = p ∧ s.output.sz = VideoSize.ctor w h f c ∧
      s.output.data.length = w * h * c * f ∧
      (∀ k j i cc, k < f → j < h → i < w → cc < c → ((k * h + j) * w + i) * c + cc < p →
        s.output.opCall i j k cc = some (I (((k * h + j) * w + i) * c + cc))))
    (by
      intro k j i cc s hk hj hi hc ⟨hp, hsz, hlen, hv⟩
      have hidx := index_ctor hov hi hj hk hc
      have hpl := pos_lt hi hj hk hc
      have hlt := lin_lt hk hj hi hc
      refine ⟨WriteState.mk (Video.mk s.output.sz (s.output.data.set
          (k * (w * h * c) + cc * (w * h) + j * w + i) (I s.pos_I)))
          ((s.pos_I + 1) % 4294967296), ?_, ?_, hsz, ?_, ?_⟩
      · show write_video_body I k j i cc s = _
        unfold write_video_body Video.opCallSet
        rw [hsz, hidx, Option.some_bind, if_pos (by omega)]
        rfl
      · show (s.pos_I + 1) % 4294967296 = _
        rw [hp]; omega
      · show (s.output.data.set _ _).length = _
        rw [List.length_set]; exact hlen
      · intro k2 j2 i2 c2 hk2 hj2 hi2 hc2 hlt2
        have hidx2 := index_ctor hov hi2 hj2 hk2 hc2
        show (s.output.sz.index i2 j2 k2 c2).bind
          (fun n => (s.output.data.set _ (I s.pos_I))[n]?) = _
        rw [hsz, hidx2, Option.some_bind]
        by_cases e : ((k2 * h + j2) * w + i2) * c + c2 = ((k * h + j) * w + i) * c + cc
        · obtain ⟨rfl, rfl, rfl, rfl⟩ := lin_inj hj2 hi2 hc2 hj hi hc e
          rw [List.getElem?_set_self (by omega), hp]
        · have hne : k * (w * h * c) + cc * (w * h) + j * w + i
              ≠ k2 * (w * h * c) + c2 * (w * h) + j2 * w + i2 := by
            intro hc3
            have h4 := index_inj hov hi hj hk hc hi2 hj2 hk2 hc2 (by rw [hidx, hidx2, hc3])
            simp only [Prod.mk.injEq] at h4
            obtain ⟨rfl, rfl, rfl, rfl⟩ := h4
            exact e rfl
          rw [List.getElem?_set_ne hne]
          have hold := hv k2 j2 i2 c2 hk2 hj2 hi2 hc2 (by omega)
          unfold Video.opCall at hold
          rw [hsz, hidx2, Option.some_bind] at hold
          exact hold)
    (WriteState.mk (Video.ctorDims w h f c) 0)
    ⟨rfl, rfl, by
      show (List.replicate (VideoSize.ctor w h f c).whcf (default : α)).length = _
      rw [List.length_replicate, whcf_ctor hov],
      fun _ _ _ _ _ _ _ _ hlt => absurd hlt (by omega)⟩
  obtain ⟨hp, hsz, hlen, hv⟩ := hq
  exact ⟨ws, hr, hp, hsz, hlen,
    fun k j i cc hk hj hi hc => hv k j i cc hk hj hi hc (lin_lt hk hj hi hc)⟩

theorem castUnsigned_castInt {n : Nat} (h : n < 4294967296) : castUnsigned (castInt n) = n := by
  unfold castUnsigned castInt
  split_ifs <;> omega

/-- C8 (counterexample): the three-channel video built by
`Video(65536, 65536, 1, 3, 0)` has `data.size() == sz.whcf == 0`, and the
first read `input(0,0,0,0)` of `read_video` is outside the vector. -/
theorem C8_counterexample_overflowing_volume :
    overflowVideo.sz.channels = 3 ∧ overflowVideo.data.length = overflowVideo.sz.whcf ∧
    overflowVideo.sz.index 0 0 0 0 = some 0 ∧ overflowVideo.opCall 0 0 0 0 = none ∧
    read_video overflowVideo (fun _ => 0) = none := by
  have hbody : ∀ s, read_video_body3 overflowVideo 0 0 0 0 s = none := by
    intro s
    unfold read_video_body3
    rw [show overflowVideo.opCall 0 0 0 0 = none by decide]
    rfl
  refine ⟨by decide, by decide, by decide, by decide, ?_⟩
  unfold read_video
  rw [if_neg (by decide), if_neg (by decide)]
  apply forLoop_first_none _ _ _ (by decide)
  apply forLoop_first_none _ _ _ (by decide)
  apply forLoop_first_none _ _ _ (by decide)
  apply forLoop_first_none _ _ _ (by decide)
  exact hbody _

/-- C8 (amended): for a well-formed three-channel video (derived fields
current, `width*height*channels*frames < 2^32`, `data.size() == sz.whcf`),
`read_video`'s loop followed by `write_video`'s loop on a fresh video of the
same width, height, frames and channels returns normally and yields a video
with the same size and the same data; both return `whcf`. -/
theorem C8_read_write_roundtrip {α : Type} [Inhabited α] (V : Video α) (I : Nat → α)
    (hwf : V.WellFormed) (hch : V.sz.channels = 3)
    (hw : V.sz.width < 4294967296) (hh : V.sz.height < 4294967296)
    (hf : V.sz.frames < 4294967296) :
    ∃ r ws, read_video V I = some r ∧
      write_video r.I (castInt V.sz.width) (castInt V.sz.height) (castInt V.sz.frames)
        (castInt V.sz.channels) = some ws ∧
      ws.output.sz = V.sz ∧ ws.output.data = V.data ∧
      r.pos_I = V.sz.whcf ∧ ws.pos_I = V.sz.whcf := by
  have hsz := hwf.1
  have hov := hwf.2.1
  have hlen := hwf.2.2
  have hvol : V.sz.whcf = V.sz.width * V.sz.height * V.sz.channels * V.sz.frames := by
    conv_lhs => rw [hsz]
    exact whcf_ctor hov
  have hN : V.sz.frames * V.sz.height * V.sz.width * V.sz.channels
      = V.sz.width * V.sz.height * V.sz.channels * V.sz.frames := by ring
  obtain ⟨r, hr, hp, hv, _⟩ := read_video_loops V I hwf
  obtain ⟨ws, hws, hwp, hwsz, hwlen, hwv⟩ :=
    write_video_loops r.I V.sz.width V.sz.height V.sz.frames V.sz.channels hov
  refine ⟨r, ws, ?_, ?_, hwsz.trans hsz.symm, ?_, by rw [hp, hvol, hN], by rw [hwp, hvol, hN]⟩
  · unfold read_video
    have h1 : ¬ (V.sz.channels ≠ 1 ∧ V.sz.channels ≠ 3) := fun h => h.2 hch
    have h2 : ¬ (V.sz.channels = 1) := by omega
    rw [if_neg h1, if_neg h2]
    exact hr
  · unfold write_video
    rw [castUnsigned_castInt hw, castUnsigned_castInt hh, castUnsigned_castInt hf,
      castUnsigned_castInt (by omega)]
    exact hws
  · apply List.ext_getElem?
    intro n
    by_cases hn : n < V.sz.width * V.sz.height * V.sz.channels * V.sz.frames
    · obtain ⟨x, y, t, k, hx, hy, ht, hk, hidx⟩ := index_surj hov hn
      have hidxV : V.sz.index x y t k = some n := by rw [hsz]; exact hidx
      have hidxW : ws.output.sz.index x y t k = some n := by rw [hwsz]; exact hidx
      have e1 := hwv t y x k ht hy hx hk
      have e2 := hv t y x k ht hy hx hk
      unfold Video.opCall at e1 e2
      rw [hidxW, Option.some_bind] at e1
      rw [hidxV, Option.some_bind] at e2
      rw [e1, e2]
    · rw [List.getElem?_eq_none (by omega), List.getElem?_eq_none (by omega)]

theorem C8_read_write_roundtrip_witness :
    ∃ r ws, read_video colourVideo (fun _ => 0) = some r ∧
      write_video r.I (castInt colourVideo.sz.width) (castInt colourVideo.sz.height)
        (castInt colourVideo.sz.frames) (castInt colourVideo.sz.channels) = some ws ∧
      ws.output.sz = colourVideo.sz ∧ ws.output.data = colourVideo.data ∧
      r.pos_I = colourVideo.sz.whcf ∧ ws.pos_I = colourVideo.sz.whcf :=
  C8_read_write_roundtrip colourVideo (fun _ => 0) (by decide) (by decide) (by decide)
    (by decide) (by decide)

/-! ### The three-coordinate forms of `index` and `coords` -/

/-- The plane and frame sizes of a constructed `VideoSize` when
`width*height*frames` does not overflow. -/
theorem ctor_wh_whf (w h f c : Nat) (hov : w * h * f < 4294967296) (hf : 0 < f) :
    (VideoSize.ctor w h f c).wh = w * h ∧ (VideoSize.ctor w h f c).whf = w * h * f := by
  have h1 : w * h ≤ w * h * f := Nat.le_mul_of_pos_right _ hf
  have e1 : w * h % 4294967296 = w * h := Nat.mod_eq_of_lt (by omega)
  have e2 : w * h * f % 4294967296 = w * h * f := Nat.mod_eq_of_lt hov
  constructor
  · show w * h % 4294967296 = w * h
    exact e1
  · show (w * h % 4294967296) * f % 4294967296 = w * h * f
    rw [e1, e2]

/-- The position `t*(w*h) + y*w + x` of an in-range `(x, y, t)` and its digits. -/
theorem pos3_digits {w h f x y t : Nat} (hx : x < w) (hy : y < h) (ht : t < f) :
    t * (w * h) + y * w + x < w * h * f ∧
    (t * (w * h) + y * w + x) % w = x ∧
    ((t * (w * h) + y * w + x) % (w * h)) / w = y ∧
    (t * (w * h) + y * w + x) / (w * h) = t := by
  have a : y * w + x < h * w := mixed_lt hy hx
  have a2 : y * w + x < w * h := by rw [Nat.mul_comm w h]; exact a
  have b : t * (w * h) + (y * w + x) < f * (w * h) := mixed_lt ht a2
  have e1 : t * (w * h) + y * w + x = t * (w * h) + (y * w + x) := by ring
  have e2 : t * (w * h) + y * w + x = (t * h + y) * w + x := by ring
  have e3 : f * (w * h) = w * h * f := Nat.mul_comm _ _
  refine ⟨by omega, ?_, ?_, ?_⟩
  · rw [e2]; exact mixed_mod hx
  · rw [e1, mixed_mod a2]; exact mixed_div hx
  · rw [e1]; exact mixed_div a2

/-- Every position below `w*h*f` is rebuilt from its three digits, which are
in range. -/
theorem digits3_pos {w h f idx : Nat} (hidx : idx < w * h * f) :
    idx % w < w ∧ (idx % (w * h)) / w < h ∧ idx / (w * h) < f ∧
    (idx / (w * h)) * (w * h) + ((idx % (w * h)) / w) * w + idx % w = idx := by
  have hpos : 0 < w * h := by
    rcases Nat.eq_zero_or_pos (w * h) with h0 | h0
    · rw [h0] at hidx; simp at hidx
    · exact h0
  have hw : 0 < w := by
    rcases Nat.eq_zero_or_pos w with h0 | h0
    · subst h0; simp at hpos
    · exact h0
  have d1 := Nat.div_add_mod idx (w * h)
  have d2 := Nat.div_add_mod (idx % (w * h)) w
  have e2 : idx % (w * h) % w = idx % w := Nat.mod_mod_of_dvd idx (Dvd.intro h rfl)
  rw [e2] at d2
  refine ⟨Nat.mod_lt _ hw, ?_, ?_, ?_⟩
  · exact div_lt_of_lt_mul' (by rw [Nat.mul_comm h w]; exact Nat.mod_lt _ hpos)
  · exact div_lt_of_lt_mul' (by rw [Nat.mul_comm f (w * h)]; exact hidx)
  · rw [Nat.mul_comm (idx / (w * h)), Nat.mul_comm (idx % (w * h) / w)]
    omega

/-- C11: for a `VideoSize` built by the constructor with `width*height*frames`
not overflowing 32 bits (any channel count), `index(x, y, t)` of an in-range
`(x, y, t)` is `t*wh + y*width + x`, lies below `whf`, and the three-coordinate
`coords` of it returns `(x, y, t)`; for every `idx < whf` the three-coordinate
`coords` returns an in-range `(x, y, t)` with `index(x, y, t) = idx`. -/
theorem C11_index3_coords3_inverse (w h f c : Nat) (hov : w * h * f < 4294967296) :
    (∀ x y t, x < w → y < h → t < f →
      (VideoSize.ctor w h f c).index3 x y t
        = some (t * (VideoSize.ctor w h f c).wh + y * w + x) ∧
      t * (VideoSize.ctor w h f c).wh + y * w + x < (VideoSize.ctor w h f c).whf ∧
      (VideoSize.ctor w h f c).coords3 (t * (VideoSize.ctor w h f c).wh + y * w + x)
        = some (x, y, t)) ∧
    (∀ idx, idx < (VideoSize.ctor w h f c).whf →
      ∃ x y t, (VideoSize.ctor w h f c).coords3 idx = some (x, y, t) ∧
        x < w ∧ y < h ∧ t < f ∧ (VideoSize.ctor w h f c).index3 x y t = some idx) := by
  constructor
  · intro x y t hx hy ht
    obtain ⟨ewh, ewhf⟩ := ctor_wh_whf w h f c hov (by omega)
    obtain ⟨hlt, d1, d2, d3⟩ := pos3_digits hx hy ht
    have hne : ¬ (w * h = 0 ∨ w = 0) := by
      intro hc
      rcases hc with h0 | h0
      · rw [h0] at hlt; simp at hlt
      · omega
    refine ⟨?_, ?_, ?_⟩
    · unfold VideoSize.index3
      rw [ewh, ctor_width, ctor_height, ctor_frames, if_pos ⟨hx, hy, ht⟩,
        Nat.mod_eq_of_lt (by omega)]
    · rw [ewh, ewhf]; exact hlt
    · unfold VideoSize.coords3
      rw [ewh, ewhf, ctor_width, if_pos hlt, if_neg hne, d1, d2, d3]
  · intro idx hidx
    have hf : 0 < f := by
      rcases Nat.eq_zero_or_pos f with h0 | h0
      · subst h0
        have e : (VideoSize.ctor w h 0 c).whf = 0 := by
          simp [VideoSize.ctor, VideoSize.update_fields]
        rw [e] at hidx; omega
      · exact h0
    obtain ⟨ewh, ewhf⟩ := ctor_wh_whf w h f c hov hf
    rw [ewhf] at hidx
    obtain ⟨hx, hy, ht, hre⟩ := digits3_pos hidx
    have hne : ¬ (w * h = 0 ∨ w = 0) := by
      intro hc
      rcases hc with h0 | h0
      · rw [h0] at hidx; simp at hidx
      · omega
    refine ⟨idx % w, idx % (w * h) / w, idx / (w * h), ?_, hx, hy, ht, ?_⟩
    · unfold VideoSize.coords3
      rw [ewh, ewhf, ctor_width, if_pos hidx, if_neg hne]
    · unfold VideoSize.index3
      rw [ewh, ctor_width, ctor_height, ctor_frames, if_pos ⟨hx, hy, ht⟩, hre,
        Nat.mod_eq_of_lt (by omega)]

theorem C11_index3_coords3_inverse_witness :
    (∀ x y t, x < 4 → y < 3 → t < 2 →
      (VideoSize.ctor 4 3 2 3).index3 x y t
        = some (t * (VideoSize.ctor 4 3 2 3).wh + y * 4 + x) ∧
      t * (VideoSize.ctor 4 3 2 3).wh + y * 4 + x < (VideoSize.ctor 4 3 2 3).whf ∧
      (VideoSize.ctor 4 3 2 3).coords3 (t * (VideoSize.ctor 4 3 2 3).wh + y * 4 + x)
        = some (x, y, t)) ∧
    (∀ idx, idx < (VideoSize.ctor 4 3 2 3).whf →
      ∃ x y t, (VideoSize.ctor 4 3 2 3).coords3 idx = some (x, y, t) ∧
        x < 4 ∧ y < 3 ∧ t < 2 ∧ (VideoSize.ctor 4 3 2 3).index3 x y t = some idx) :=
  C11_index3_coords3_inverse 4 3 2 3 (by decide)

/-! ### Derived fields -/

theorem derived_update_fields (s : VideoSize) : (VideoSize.update_fields s).Derived :=
  ⟨rfl, rfl, rfl, rfl⟩

/-- C12: in every `VideoSize` produced by either constructor, and in the `sz`
of every `Video` after a constructor, `clear()` or a `resize` with a
constructor-built extent, `wh = width*height`, `whc = wh*channels`,
`whcf = whc*frames` and `whf = wh*frames`, each modulo `2^32`; the copy
constructor and a `resize` that changes nothing keep the property of the
source, and the constructor from files keeps it when `loadVideo` does. -/
theorem C12_derived_fields_current {α : Type} [Inhabited α] :
    VideoSize.ctorVoid.Derived ∧
    (∀ w h f c, (VideoSize.ctor w h f c).Derived) ∧
    (Video.ctorVoid : Video α).sz.Derived ∧
    (∀ v : Video α, v.sz.Derived → (Video.ctorCopy v).sz.Derived) ∧
    (∀ w h f c, (Video.ctorDims w h f c : Video α).sz.Derived) ∧
    (∀ w h f c (val : α), (Video.ctorDimsVal w h f c val).sz.Derived) ∧
    (∀ w h f c, (Video.ctorSize (VideoSize.ctor w h f c) : Video α).sz.Derived) ∧
    (∀ w h f c (val : α), (Video.ctorSizeVal (VideoSize.ctor w h f c) val).sz.Derived) ∧
    (∀ v : Video α, (Video.clear v).sz.Derived) ∧
    (∀ (v : Video α) w h f c, v.sz.Derived → (v.resize (VideoSize.ctor w h f c)).sz.Derived) ∧
    (∀ (v : Video α) w h f c, v.sz.Derived → (v.resizeDims w h f c).sz.Derived) ∧
    (∀ loadVideo : Video α → Option (Video α),
      (∀ v v2, v.sz.Derived → loadVideo v = some v2 → v2.sz.Derived) →
      ∀ v2, Video.ctorFile loadVideo = some v2 → v2.sz.Derived) := by
  have hres : ∀ (v : Video α) w h f c, v.sz.Derived →
      (v.resize (VideoSize.ctor w h f c)).sz.Derived := by
    intro v w h f c hv
    rw [resize_eq]
    split_ifs
    · exact hv
    · exact derived_update_fields _
  refine ⟨derived_update_fields _, fun _ _ _ _ => derived_update_fields _,
    derived_update_fields _, fun _ hv => hv, fun _ _ _ _ => derived_update_fields _,
    fun _ _ _ _ _ => derived_update_fields _, fun _ _ _ _ => derived_update_fields _,
    fun _ _ _ _ _ => derived_update_fields _, fun _ => derived_update_fields _,
    hres, fun v w h f c hv => hres v w h f c hv, ?_⟩
  intro loadVideo hload v2 hv2
  exact hload _ v2 (derived_update_fields _) hv2

theorem C12_derived_fields_current_witness :
    (Video.ctorCopy smallVideo).sz.Derived ∧
    (smallVideo.resize (VideoSize.ctor 2 1 1 1)).sz.Derived ∧
    (smallVideo.resizeDims 3 2 2 1).sz.Derived ∧
    (∀ v2, Video.ctorFile (fun v : Video Nat => some (Video.clear v)) = some v2 →
      v2.sz.Derived) :=
  ⟨(@C12_derived_fields_current Nat _).2.2.2.1 smallVideo (by decide),
    (@C12_derived_fields_current Nat _).2.2.2.2.2.2.2.2.2.1 smallVideo 2 1 1 1 (by decide),
    (@C12_derived_fields_current Nat _).2.2.2.2.2.2.2.2.2.2.1 smallVideo 3 2 2 1 (by decide),
    (@C12_derived_fields_current Nat _).2.2.2.2.2.2.2.2.2.2.2
      (fun v : Video Nat => some (Video.clear v))
      (fun v v2 _ he => by
        have e : v2 = Video.clear v := (Option.some.inj he).symm
        rw [e]
        exact derived_update_fields _)⟩

/-! ### The reflection period of `getPixelSymmetric` -/

/-- For a dimension below `2^30` the products `2*(int)n` and `2*(int)n - 2`
fit, and the symmetrisation is the reflection formula with a checked last
operation. -/
theorem symmetrize_small {n : Nat} (hn : n < 1073741824) (x : Int) :
    symmetrize n x =
      if x < 0 then int32 (-x)
      else if x ≥ (n : Int) then int32 (2 * (n : Int) - 2 - x) else some x := by
  unfold symmetrize
  rw [castInt_of_lt (by omega)]
  by_cases h1 : x < 0
  · rw [if_pos h1, if_pos h1]
  · rw [if_neg h1, if_neg h1]
    by_cases h2 : x ≥ (n : Int)
    · rw [if_pos h2, if_pos h2, int32_of_range (by omega) (by omega)]
      simp only [Option.some_bind]
      rw [int32_of_range (by omega) (by omega)]
      rfl
    · rw [if_neg h2, if_neg h2]

/-- The reflected coordinate lies in `[0, n)` exactly within one reflection
period. -/
theorem symmetrize_in_range_iff {n : Nat} (hn : n < 1073741824) (x : Int) :
    (∃ r, symmetrize n x = some r ∧ 0 ≤ r ∧ r < (n : Int)) ↔
      (-(n : Int) < x ∧ x < 2 * (n : Int) - 1) := by
  rw [symmetrize_small hn]
  by_cases h1 : x < 0
  · rw [if_pos h1]
    constructor
    · rintro ⟨r, hr, h0, hlt⟩
      obtain ⟨_, _, e⟩ := int32_eq_some_iff.1 hr
      omega
    · rintro ⟨ha, _⟩
      exact ⟨-x, int32_of_range (by omega) (by omega), by omega, by omega⟩
  · rw [if_neg h1]
    by_cases h2 : x ≥ (n : Int)
    · rw [if_pos h2]
      constructor
      · rintro ⟨r, hr, h0, hlt⟩
        obtain ⟨_, _, e⟩ := int32_eq_some_iff.1 hr
        omega
      · rintro ⟨_, hb⟩
        exact ⟨2 * (n : Int) - 2 - x, int32_of_range (by omega) (by omega), by omega, by omega⟩
    · rw [if_neg h2]
      constructor
      · rintro ⟨r, hr, h0, hlt⟩
        have e : x = r := Option.some.inj hr
        omega
      · rintro ⟨_, _⟩
        exact ⟨x, rfl, by omega, by omega⟩

/-- For a dimension below `2^30` the assertion is the mathematical bound. -/
theorem symAssert1_small {n : Nat} (hn : n < 1073741824) (x : Int) :
    symAssert1 n x = some true ↔ (-(n : Int) < x ∧ x < 2 * (n : Int) - 1) := by
  rw [symAssert1_true_iff, castInt_of_lt (by omega)]
  constructor
  · rintro ⟨_, h2, h3⟩; exact ⟨h2, h3⟩
  · rintro ⟨h2, h3⟩; exact ⟨by omega, h2, h3⟩

/-- With the assertion of `getPixelSymmetric` passed and the channel in range,
the symmetrised coordinates pass the assertion of `index`. -/
theorem index_after_symmetrize (s : VideoSize) (x y t : Int) (c : Nat)
    (hw : s.width < 1073741824) (hh : s.height < 1073741824) (hf : s.frames < 1073741824)
    (hpre : symAssert s x y t = some true) (hc : c < s.channels) :
    ∃ x1 y1 t1 i, symmetrize s.width x = some x1 ∧ symmetrize s.height y = some y1 ∧
      symmetrize s.frames t = some t1 ∧
      s.index (castUnsigned x1) (castUnsigned y1) (castUnsigned t1) c = some i := by
  obtain ⟨a1, a2, a3⟩ := (symAssert_true_iff _ _ _ _).1 hpre
  obtain ⟨rx, hrx, sx⟩ := symmetrize_in_range (by omega) a1
  obtain ⟨ry, hry, s_y⟩ := symmetrize_in_range (by omega) a2
  obtain ⟨rt, hrt, s_t⟩ := symmetrize_in_range (by omega) a3
  refine ⟨rx, ry, rt, (rt * s.whc + c * s.wh + ry * s.width + rx) % 4294967296,
    sx, s_y, s_t, ?_⟩
  rw [castUnsigned_natCast (by omega), castUnsigned_natCast (by omega),
    castUnsigned_natCast (by omega)]
  unfold VideoSize.index
  rw [if_pos ⟨hrx, hry, hrt, hc⟩]

/-- C18: for a dimension `n` with `2n` fitting a signed 32-bit `int` and every
signed `x`, the coordinate computed by the symmetrisation of
`getPixelSymmetric` (`-x` if `x < 0`, `2n-2-x` if `x >= n`, else `x`) lies in
`[0, n)` if and only if `-n < x < 2n-1`, which is exactly when the assertion
passes; under the assertion and `c < channels` the assertion of `index` passes
too, and outside the bound the reflected coordinate is not in range. -/
theorem C18_reflection_in_range_iff (n : Nat) (hn : n < 1073741824) (x : Int) :
    ((∃ r, symmetrize n x = some r ∧ 0 ≤ r ∧ r < (n : Int)) ↔
      (-(n : Int) < x ∧ x < 2 * (n : Int) - 1)) ∧
    (∀ r, symmetrize n x = some r →
      r = if x < 0 then -x else if x ≥ (n : Int) then 2 * (n : Int) - 2 - x else x) ∧
    (symAssert1 n x = some true ↔ (-(n : Int) < x ∧ x < 2 * (n : Int) - 1)) ∧
    (¬ (-(n : Int) < x ∧ x < 2 * (n : Int) - 1) →
      ¬ ∃ r, symmetrize n x = some r ∧ 0 ≤ r ∧ r < (n : Int)) ∧
    (∀ (s : VideoSize) (x2 y2 t2 : Int) (c : Nat),
      s.width < 1073741824 → s.height < 1073741824 → s.frames < 1073741824 →
      symAssert s x2 y2 t2 = some true → c < s.channels →
      ∃ x1 y1 t1 i, symmetrize s.width x2 = some x1 ∧ symmetrize s.height y2 = some y1 ∧
        symmetrize s.frames t2 = some t1 ∧
        s.index (castUnsigned x1) (castUnsigned y1) (castUnsigned t1) c = some i) := by
  refine ⟨symmetrize_in_range_iff hn x, ?_, symAssert1_small hn x,
    fun hno hex => hno ((symmetrize_in_range_iff hn x).1 hex),
    fun s x2 y2 t2 c hw hh hf hpre hc => index_after_symmetrize s x2 y2 t2 c hw hh hf hpre hc⟩
  intro r hr
  rw [symmetrize_small hn] at hr
  by_cases h1 : x < 0
  · rw [if_pos h1] at hr
    rw [if_pos h1]
    exact (int32_eq_some_iff.1 hr).2.2
  · rw [if_neg h1] at hr
    rw [if_neg h1]
    by_cases h2 : x ≥ (n : Int)
    · rw [if_pos h2] at hr
      rw [if_pos h2]
      exact (int32_eq_some_iff.1 hr).2.2
    · rw [if_neg h2] at hr
      rw [if_neg h2]
      exact (Option.some.inj hr).symm

theorem C18_reflection_in_range_iff_witness :
    ((∃ r, symmetrize 3 (-2) = some r ∧ 0 ≤ r ∧ r < ((3 : Nat) : Int)) ↔
      (-((3 : Nat) : Int) < -2 ∧ (-2 : Int) < 2 * ((3 : Nat) : Int) - 1)) ∧
    symmetrize 3 (-2) = some 2 ∧ symmetrize 3 4 = some 0 ∧ symmetrize 3 5 = some (-1) ∧
    symAssert1 3 5 = some false :=
  ⟨(C18_reflection_in_range_iff 3 (by decide) (-2)).1, by decide, by decide, by decide,
    by decide⟩

/-- C19 (counterexample): the video built by `Video(1, 2147483649, 1, 1, 0)` has
all dimensions at least 1, `(0, 0, 0)` is an in-range centre and the zero
offset is within `min(width, height, frames) - 1 = 0`, and the assertion of
`getPixelSymmetric` fails at `(0, 0, 0)`. -/
theorem C19_counterexample_tall_video :
    1 ≤ tallVideo.sz.width ∧ 1 ≤ tallVideo.sz.height ∧ 1 ≤ tallVideo.sz.frames ∧
    (0 : Int).natAbs ≤ min tallVideo.sz.width (min tallVideo.sz.height tallVideo.sz.frames) - 1 ∧
    symAssert tallVideo.sz (((0 : Nat) : Int) + 0) (((0 : Nat) : Int) + 0)
      (((0 : Nat) : Int) + 0) = some false ∧
    tallVideo.getPixelSymmetric (((0 : Nat) : Int) + 0) (((0 : Nat) : Int) + 0)
      (((0 : Nat) : Int) + 0) 0 = none := by
  have hsz : tallVideo.sz = VideoSize.mk 1 2147483649 1 1 2147483649 2147483649
      2147483649 2147483649 := by decide
  have hassert : symAssert tallVideo.sz (((0 : Nat) : Int) + 0) (((0 : Nat) : Int) + 0)
      (((0 : Nat) : Int) + 0) = some false := by
    rw [hsz]; decide
  refine ⟨by rw [hsz], by rw [hsz]; decide, by rw [hsz], by rw [hsz]; decide, hassert, ?_⟩
  unfold Video.getPixelSymmetric
  rw [hassert]
  rfl

/-- C19 (amended): for a video whose width, height and frames are at least 1
and below `2^30`, an in-range centre `(x, y, t)` and signed offsets of absolute
value at most `min(width, height, frames) - 1`, the coordinate
`(x+dx, y+dy, t+dt)` passes the assertion of `getPixelSymmetric`; with
`c < channels` the assertion of `index` passes as well, and in a well-formed
video the call returns an element. -/
theorem C19_neighbourhood_within_period {α : Type} (v : Video α) (x y t : Nat)
    (dx dy dt : Int) (c : Nat)
    (hw1 : 1 ≤ v.sz.width) (hh1 : 1 ≤ v.sz.height) (hf1 : 1 ≤ v.sz.frames)
    (hw : v.sz.width < 1073741824) (hh : v.sz.height < 1073741824)
    (hf : v.sz.frames < 1073741824)
    (hx : x < v.sz.width) (hy : y < v.sz.height) (ht : t < v.sz.frames)
    (hdx : dx.natAbs ≤ min v.sz.width (min v.sz.height v.sz.frames) - 1)
    (hdy : dy.natAbs ≤ min v.sz.width (min v.sz.height v.sz.frames) - 1)
    (hdt : dt.natAbs ≤ min v.sz.width (min v.sz.height v.sz.frames) - 1) :
    symAssert v.sz ((x : Int) + dx) ((y : Int) + dy) ((t : Int) + dt) = some true ∧
    (c < v.sz.channels →
      ∃ x1 y1 t1 i, symmetrize v.sz.width ((x : Int) + dx) = some x1 ∧
        symmetrize v.sz.height ((y : Int) + dy) = some y1 ∧
        symmetrize v.sz.frames ((t : Int) + dt) = some t1 ∧
        v.sz.index (castUnsigned x1) (castUnsigned y1) (castUnsigned t1) c = some i) ∧
    (c < v.sz.channels → v.WellFormed →
      ∃ a, v.getPixelSymmetric ((x : Int) + dx) ((y : Int) + dy) ((t : Int) + dt) c
        = some a) := by
  have _ := hw1
  have _ := hh1
  have _ := hf1
  have hpre : symAssert v.sz ((x : Int) + dx) ((y : Int) + dy) ((t : Int) + dt) = some true := by
    rw [symAssert_true_iff]
    exact ⟨(symAssert1_small hw _).2 (by omega), (symAssert1_small hh _).2 (by omega),
      (symAssert1_small hf _).2 (by omega)⟩
  exact ⟨hpre, fun hc => index_after_symmetrize v.sz _ _ _ c hw hh hf hpre hc,
    fun hc hwf => getPixelSymmetric_defined v hwf _ _ _ hc hpre⟩

theorem C19_neighbourhood_within_period_witness :
    symAssert smallVideo.sz (((2 : Nat) : Int) + 1) (((0 : Nat) : Int) + (-1))
      (((1 : Nat) : Int) + 1) = some true ∧
    (0 < smallVideo.sz.channels →
      ∃ x1 y1 t1 i, symmetrize smallVideo.sz.width (((2 : Nat) : Int) + 1) = some x1 ∧
        symmetrize smallVideo.sz.height (((0 : Nat) : Int) + (-1)) = some y1 ∧
        symmetrize smallVideo.sz.frames (((1 : Nat) : Int) + 1) = some t1 ∧
        smallVideo.sz.index (castUnsigned x1) (castUnsigned y1) (castUnsigned t1) 0 = some i) ∧
    (0 < smallVideo.sz.channels → smallVideo.WellFormed →
      ∃ a, smallVideo.getPixelSymmetric (((2 : Nat) : Int) + 1) (((0 : Nat) : Int) + (-1))
        (((1 : Nat) : Int) + 1) 0 = some a) :=
  C19_neighbourhood_within_period smallVideo 2 0 1 1 (-1) 1 0 (by decide) (by decide)
    (by decide) (by decide) (by decide) (by decide) (by decide) (by decide) (by decide)
    (by decide) (by decide) (by decide)

/-! ### The record of the stores of the three-channel loops -/

/-- Forgetting an observation of the state commutes with a counted loop. -/
theorem forFrom_map {σ τ : Type} (proj : τ → σ) (bodyL : Nat → τ → Option τ)
    (body : Nat → σ → Option σ)
    (h : ∀ i s, (bodyL i s).map proj = body i (proj s)) :
    ∀ k i s, (forFrom bodyL i k s).map proj = forFrom body i k (proj s) := by
  intro k
  induction k with
  | zero => intro i s; rfl
  | succ k ih =>
    intro i s
    show ((bodyL i s).bind (forFrom bodyL (i + 1) k)).map proj
      = (body i (proj s)).bind (forFrom body (i + 1) k)
    rw [← h i s]
    cases hb : bodyL i s with
    | none => rfl
    | some s2 =>
      show (forFrom bodyL (i + 1) k s2).map proj = forFrom body (i + 1) k (proj s2)
      exact ih (i + 1) s2

theorem forLoop_map {σ τ : Type} (proj : τ → σ) (n : Nat) (bodyL : Nat → τ → Option τ)
    (body : Nat → σ → Option σ)
    (h : ∀ i s, (bodyL i s).map proj = body i (proj s)) (s : τ) :
    (forLoop n bodyL s).map proj = forLoop n body (proj s) :=
  forFrom_map proj bodyL body h n 0 s

/-- The loops with the record compute the same state as the loops of
`read_video`. -/
theorem read_video_loops3_log_erase {α : Type} (V : Video α) (I : Nat → α) :
    (read_video_loops3_log V I).map LogState.st =
      forLoop V.sz.frames (fun k => forLoop V.sz.height (fun j =>
        forLoop V.sz.width (fun i => forLoop V.sz.channels (fun c =>
          read_video_body3 V k j i c)))) (CopyState.mk I 0) := by
  unfold read_video_loops3_log
  refine forLoop_map LogState.st _ _ _ (fun k s => ?_) _
  refine forLoop_map LogState.st _ _ _ (fun j s2 => ?_) _
  refine forLoop_map LogState.st _ _ _ (fun i s3 => ?_) _
  refine forLoop_map LogState.st _ _ _ (fun c s4 => ?_) _
  unfold read_video_body3_log
  cases read_video_body3 V k j i c s4.st <;> rfl

/-- On a well-formed video the record of the stores is `0, 1, ..., N-1` for
`N` the number of samples. -/
theorem read_video_loops3_log_range {α : Type} (V : Video α) (I : Nat → α)
    (hwf : V.WellFormed) :
    ∃ L, read_video_loops3_log V I = some L ∧
      L.log = List.range (V.sz.frames * V.sz.height * V.sz.width * V.sz.channels) := by
  have hov := hwf.2.1
  have hN : V.sz.frames * V.sz.height * V.sz.width * V.sz.channels
      = V.sz.width * V.sz.height * V.sz.channels * V.sz.frames := by ring
  obtain ⟨L, hL, hq⟩ := nest4_inv V.sz.frames V.sz.height V.sz.width V.sz.channels
    (fun k j i c => read_video_body3_log V k j i c)
    (fun p s => s.log = List.range p ∧ s.st.pos_I = p)
    (by
      intro k j i c s hk hj hi hc ⟨hlog, hp⟩
      obtain ⟨a, ha⟩ := opCall_defined V hwf hi hj hk hc
      have hlt := lin_lt hk hj hi hc
      refine ⟨LogState.mk (CopyState.mk (Function.update s.st.I s.st.pos_I a)
        ((s.st.pos_I + 1) % 4294967296)) (s.log ++ [s.st.pos_I]), ?_, ?_, ?_⟩
      · show read_video_body3_log V k j i c s = _
        unfold read_video_body3_log read_video_body3
        rw [ha]
        rfl
      · show s.log ++ [s.st.pos_I] = _
        rw [hlog, hp, List.range_succ]
      · show (s.st.pos_I + 1) % 4294967296 = _
        rw [hp]; omega)
    (LogState.mk (CopyState.mk I 0) []) ⟨rfl, rfl⟩
  exact ⟨L, hL, hq.1⟩

/-- C17 (counterexample): the three-channel video built by
`Video(65536, 32768, 2, 3, 0)` has `data.size() == sz.whcf == 0`, and the first
read `input(0,0,0,0)` of the three-channel loop is outside the vector, so
`read_video` does not return. -/
theorem C17_counterexample_wrapped_volume :
    wrappedVideo.sz = VideoSize.ctor 65536 32768 2 3 ∧
    wrappedVideo.sz.channels = 3 ∧ wrappedVideo.data.length = wrappedVideo.sz.whcf ∧
    wrappedVideo.sz.whcf = 0 ∧ wrappedVideo.opCall 0 0 0 0 = none ∧
    read_video wrappedVideo (fun _ => 0) = none := by
  have hbody : ∀ s, read_video_body3 wrappedVideo 0 0 0 0 s = none := by
    intro s
    unfold read_video_body3
    rw [show wrappedVideo.opCall 0 0 0 0 = none by decide]
    rfl
  refine ⟨rfl, by decide, by decide, by decide, by decide, ?_⟩
  unfold read_video
  rw [if_neg (by decide), if_neg (by decide)]
  apply forLoop_first_none _ _ _ (by decide)
  apply forLoop_first_none _ _ _ (by decide)
  apply forLoop_first_none _ _ _ (by decide)
  apply forLoop_first_none _ _ _ (by decide)
  exact hbody _

/-- C17 (amended): for a well-formed three-channel video (derived fields
current, `width*height*channels*frames < 2^32`, `data.size() == sz.whcf`),
`read_video` returns normally, `I[((t*height + y)*width + x)*3 + c]` holds
`V(x,y,t,c)` for every in-range `(x,y,t,c)`, the stores go to the offsets
`0, 1, ..., whcf-1` in this order, each once, the memory from `whcf` on is
untouched, and the returned value is `whcf`. -/
theorem C17_three_channel_copy {α : Type} (V : Video α) (I : Nat → α)
    (hwf : V.WellFormed) (hch : V.sz.channels = 3) :
    ∃ r, read_video V I = some r ∧
      (∀ x y t c, x < V.sz.width → y < V.sz.height → t < V.sz.frames → c < 3 →
        V.opCall x y t c = some (r.I (((t * V.sz.height + y) * V.sz.width + x) * 3 + c))) ∧
      (∃ L, read_video_loops3_log V I = some L ∧ L.st = r ∧
        L.log = List.range V.sz.whcf) ∧
      (∀ q, V.sz.whcf ≤ q → r.I q = I q) ∧
      r.pos_I = V.sz.whcf := by
  have hsz := hwf.1
  have hov := hwf.2.1
  have hvol : V.sz.whcf = V.sz.width * V.sz.height * V.sz.channels * V.sz.frames := by
    conv_lhs => rw [hsz]
    exact whcf_ctor hov
  have hN : V.sz.frames * V.sz.height * V.sz.width * V.sz.channels = V.sz.whcf := by
    rw [hvol]; ring
  obtain ⟨r, hr, hp, hv, hfr⟩ := read_video_loops V I hwf
  obtain ⟨L, hL, hlog⟩ := read_video_loops3_log_range V I hwf
  have hst : L.st = r := by
    have e := read_video_loops3_log_erase V I
    rw [hL, hr] at e
    exact Option.some.inj e
  refine ⟨r, ?_, ?_, ⟨L, hL, hst, by rw [hlog, hN]⟩, ?_, by rw [hp, hN]⟩
  · unfold read_video
    have h1 : ¬ (V.sz.channels ≠ 1 ∧ V.sz.channels ≠ 3) := fun h => h.2 hch
    have h2 : ¬ (V.sz.channels = 1) := by omega
    rw [if_neg h1, if_neg h2]
    exact hr
  · intro x y t c hx hy ht hc
    have e := hv t y x c ht hy hx (by omega)
    rw [hch] at e
    exact e
  · intro q hq
    exact hfr q (by omega)

theorem C17_three_channel_copy_witness :
    ∃ r, read_video colourVideo (fun _ => 0) = some r ∧
      (∀ x y t c, x < colourVideo.sz.width → y < colourVideo.sz.height →
        t < colourVideo.sz.frames → c < 3 →
        colourVideo.opCall x y t c
          = some (r.I (((t * colourVideo.sz.height + y) * colourVideo.sz.width + x) * 3 + c))) ∧
      (∃ L, read_video_loops3_log colourVideo (fun _ => 0) = some L ∧ L.st = r ∧
        L.log = List.range colourVideo.sz.whcf) ∧
      (∀ q, colourVideo.sz.whcf ≤ q → r.I q = (fun _ => 0) q) ∧
      r.pos_I = colourVideo.sz.whcf :=
  C17_three_channel_copy colourVideo (fun _ => 0) (by decide) (by decide)

/-! ### The broadcast path against the three-channel path -/

/-- Every position below `w*h*c*f` has in-range digits that rebuild it. -/
theorem digits4_in_range {w h f c idx : Nat} (hidx : idx < w * h * c * f) :
    ∃ x y t k, x < w ∧ y < h ∧ t < f ∧ k < c ∧
      t * (w * h * c) + k * (w * h) + y * w + x = idx := by
  have hwhc : idx / (w * h * c) < f :=
    div_lt_of_lt_mul' (by rw [Nat.mul_comm f (w * h * c)]; exact hidx)
  have hpos : 0 < w * h * c := by
    rcases Nat.eq_zero_or_pos (w * h * c) with h0 | h0
    · rw [h0] at hidx; simp at hidx
    · exact h0
  have hpos2 : 0 < w * h := by
    rcases Nat.eq_zero_or_pos (w * h) with h0 | h0
    · rw [h0] at hpos; simp at hpos
    · exact h0
  have hw : 0 < w := by
    rcases Nat.eq_zero_or_pos w with h0 | h0
    · subst h0; simp at hpos2
    · exact h0
  exact ⟨idx % w, idx % (w * h) / w, idx / (w * h * c), idx % (w * h * c) / (w * h),
    Nat.mod_lt _ hw,
    div_lt_of_lt_mul' (by rw [Nat.mul_comm h w]; exact Nat.mod_lt _ hpos2), hwhc,
    div_lt_of_lt_mul' (by rw [Nat.mul_comm c (w * h)]; exact Nat.mod_lt _ hpos),
    digits_pos w h c idx⟩

/-- The index computed with the wrapped products is the unbounded linear
position modulo `2^32`. -/
theorem index_ctor_mod {w h f c x y t k : Nat}
    (hx : x < w) (hy : y < h) (ht : t < f) (hk : k < c) :
    (VideoSize.ctor w h f c).index x y t k
      = some ((t * (w * h * c) + k * (w * h) + y * w + x) % 4294967296) := by
  have h1 : (w * h) % 4294967296 ≡ w * h [MOD 4294967296] := Nat.mod_modEq _ _
  have h2 : ((w * h) % 4294967296 * c) % 4294967296 ≡ w * h * c [MOD 4294967296] :=
    (Nat.mod_modEq _ _).trans (h1.mul_right c)
  have h3 : t * (((w * h) % 4294967296 * c) % 4294967296) + k * ((w * h) % 4294967296)
      + y * w + x ≡ t * (w * h * c) + k * (w * h) + y * w + x [MOD 4294967296] :=
    (((h2.mul_left t).add (h1.mul_left k)).add_right _).add_right _
  unfold VideoSize.index
  rw [ctor_width, ctor_height, ctor_frames, ctor_channels, if_pos ⟨hx, hy, ht, hk⟩]
  exact congrArg some h3

/-- A video built on a constructed size, with `data.size() == sz.whcf`, in which
every in-range read returns an element has a volume that does not overflow. -/
theorem no_overflow_of_reads {α : Type} (V : Video α) (w h f c : Nat)
    (hsz : V.sz = VideoSize.ctor w h f c) (hlen : V.data.length = V.sz.whcf)
    (hreads : ∀ x y t k, x < w → y < h → t < f → k < c → ∃ a, V.opCall x y t k = some a) :
    w * h * c * f < 4294967296 := by
  by_contra hge
  have hL : 4294967295 < w * h * c * f := by omega
  obtain ⟨x, y, t, k, hx, hy, ht, hk, hpos⟩ := digits4_in_range hL
  obtain ⟨a, ha⟩ := hreads x y t k hx hy ht hk
  unfold Video.opCall at ha
  rw [hsz, index_ctor_mod hx hy ht hk, hpos, Option.some_bind] at ha
  have hlt : 4294967295 % 4294967296 < V.data.length := by
    by_contra hno
    rw [List.getElem?_eq_none (by omega)] at ha
    cases ha
  have hvol : V.sz.whcf < 4294967296 := by
    rw [hsz]
    show _ % 4294967296 < 4294967296
    exact Nat.mod_lt _ (by decide)
  omega

/-- The frame size of a constructed `VideoSize` when `width*height*frames` does
not overflow. -/
theorem whf_ctor {w h f c : Nat} (hov : w * h * f < 4294967296) :
    (VideoSize.ctor w h f c).whf = w * h * f := by
  rcases Nat.eq_zero_or_pos f with hf | hf
  · subst hf; simp [VideoSize.ctor, VideoSize.update_fields]
  · exact (ctor_wh_whf w h f c hov hf).2

/-- In a one-channel video without overflow the access `V(x, y, t, 0)` is the
linear access `V((t*height + y)*width + x)`. -/
theorem opCall_one_channel {α : Type} (V : Video α)
    (hsz : V.sz = VideoSize.ctor V.sz.width V.sz.height V.sz.frames V.sz.channels)
    (hch : V.sz.channels = 1)
    (hov : V.sz.width * V.sz.height * V.sz.frames < 4294967296)
    {x y t : Nat} (hx : x < V.sz.width) (hy : y < V.sz.height) (ht : t < V.sz.frames) :
    V.opCall x y t 0 = V.opCallIdx ((t * V.sz.height + y) * V.sz.width + x) := by
  have hov4 : V.sz.width * V.sz.height * V.sz.channels * V.sz.frames < 4294967296 := by
    rw [hch, Nat.mul_one]; exact hov
  have hvol : V.sz.whcf = V.sz.width * V.sz.height * V.sz.channels * V.sz.frames := by
    conv_lhs => rw [hsz]
    exact whcf_ctor hov4
  have hc0 : 0 < V.sz.channels := by omega
  have hi := index_ctor hov4 hx hy ht hc0
  rw [← hsz] at hi
  have hlt := pos_lt hx hy ht hc0
  have e : t * (V.sz.width * V.sz.height * V.sz.channels) + 0 * (V.sz.width * V.sz.height)
      + y * V.sz.width + x = (t * V.sz.height + y) * V.sz.width + x := by
    rw [hch]; ring
  rw [e] at hi hlt
  unfold Video.opCall Video.opCallIdx
  rw [hi, Option.some_bind, if_pos (by omega)]

/-- Every position below `w*h*f` is the linear position of an in-range
`(x, y, t)`. -/
theorem digits3_exists {w h f idx : Nat} (hidx : idx < w * h * f) :
    ∃ x y t, x < w ∧ y < h ∧ t < f ∧ t * (w * h) + y * w + x = idx := by
  obtain ⟨hx, hy, ht, hre⟩ := digits3_pos hidx
  exact ⟨_, _, _, hx, hy, ht, hre⟩

/-- C20: for a one-channel video `V` (derived fields current,
`data.size() == sz.whcf`) and the three-channel video `V3` of the same width,
height and frames with `V3(x, y, t, c) = V(x, y, t, 0)` for `c` in `{0, 1, 2}`,
`read_video` returns normally on both with the same output array and the same
returned value. -/
theorem C20_broadcast_agrees_with_three_channel {α : Type} (V V3 : Video α) (I : Nat → α)
    (hsz : V.sz = VideoSize.ctor V.sz.width V.sz.height V.sz.frames V.sz.channels)
    (hch : V.sz.channels = 1) (hlen : V.data.length = V.sz.whcf)
    (hsz3 : V3.sz = VideoSize.ctor V.sz.width V.sz.height V.sz.frames 3)
    (hlen3 : V3.data.length = V3.sz.whcf)
    (hdef : ∀ x y t c, x < V.sz.width → y < V.sz.height → t < V.sz.frames → c < 3 →
      ∃ a, V3.opCall x y t c = some a ∧ V.opCall x y t 0 = some a) :
    ∃ r, read_video V I = some r ∧ read_video V3 I = some r := by
  have ew : V3.sz.width = V.sz.width := by rw [hsz3]; rfl
  have eh : V3.sz.height = V.sz.height := by rw [hsz3]; rfl
  have ef : V3.sz.frames = V.sz.frames := by rw [hsz3]; rfl
  have ec : V3.sz.channels = 3 := by rw [hsz3]; rfl
  have hov3 : V.sz.width * V.sz.height * 3 * V.sz.frames < 4294967296 :=
    no_overflow_of_reads V3 _ _ _ 3 hsz3 hlen3
      (fun x y t k hx hy ht hk => by
        obtain ⟨a, ha, _⟩ := hdef x y t k hx hy ht hk
        exact ⟨a, ha⟩)
  have hprod : V.sz.width * V.sz.height * 3 * V.sz.frames
      = 3 * (V.sz.width * V.sz.height * V.sz.frames) := by ring
  have hov : V.sz.width * V.sz.height * V.sz.frames < 4294967296 := by omega
  have hwf3 : V3.WellFormed := by
    refine ⟨?_, ?_, hlen3⟩
    · rw [ew, eh, ef, ec]; exact hsz3
    · rw [ew, eh, ef, ec]; exact hov3
  have hsz1 : V.sz = VideoSize.ctor V.sz.width V.sz.height V.sz.frames 1 := by
    rw [← hch]; exact hsz
  have hwhf : V.sz.whf = V.sz.width * V.sz.height * V.sz.frames := by
    conv_lhs => rw [hsz]
    exact whf_ctor hov
  have heq : V.sz.whf = V.sz.whcf := by
    rw [hsz1]; exact whf_eq_whcf_of_one_channel _ _ _
  obtain ⟨r1, hr1, hp1, hcont⟩ := read_video_one_channel V I hch hlen (by omega) (by omega)
  obtain ⟨hv1, hfr1⟩ := hcont (by omega)
  obtain ⟨r3, hr3, hp3, hv3, hfr3⟩ := read_video_loops V3 I hwf3
  rw [ew, eh, ef, ec] at hp3 hv3 hfr3
  have hN : V.sz.frames * V.sz.height * V.sz.width * 3
      = 3 * (V.sz.width * V.sz.height * V.sz.frames) := by ring
  have hI : r1.I = r3.I := by
    funext q
    by_cases hq : q < 3 * V.sz.whf
    · have hi : q / 3 < V.sz.width * V.sz.height * V.sz.frames := by omega
      obtain ⟨x, y, t, hx, hy, ht, hre⟩ := digits3_exists hi
      have e1 := hv1 (q / 3) (q % 3) (by omega) (by omega)
      obtain ⟨a, ha3, ha1⟩ := hdef x y t (q % 3) hx hy ht (by omega)
      have e3 := hv3 t y x (q % 3) ht hy hx (by omega)
      have elin : (t * V.sz.height + y) * V.sz.width + x = q / 3 := by
        rw [← hre]; ring
      rw [opCall_one_channel V hsz hch hov hx hy ht, elin, e1] at ha1
      rw [e3, elin] at ha3
      have eq3 : 3 * (q / 3) + q % 3 = q := by omega
      have eq3b : q / 3 * 3 + q % 3 = q := by omega
      rw [eq3] at ha1
      rw [eq3b] at ha3
      rw [Option.some.inj ha1, Option.some.inj ha3]
    · rw [hfr1 q (by omega), hfr3 q (by omega)]
  have hP : r1.pos_I = r3.pos_I := by
    rw [hp1, hp3]; omega
  have hr : r1 = r3 := by
    cases r1
    cases r3
    simp only at hI hP
    subst hI
    subst hP
    rfl
  refine ⟨r1, ?_, ?_⟩
  · exact hr1
  · rw [hr]
    unfold read_video
    have h1 : ¬ (V3.sz.channels ≠ 1 ∧ V3.sz.channels ≠ 3) := fun h => h.2 ec
    have h2 : ¬ (V3.sz.channels = 1) := by omega
    rw [if_neg h1, if_neg h2]
    exact hr3

theorem C20_broadcast_agrees_with_three_channel_witness :
    ∃ r, read_video grayVideo (fun _ => 0) = some r ∧
      read_video grayVideo3 (fun _ => 0) = some r :=
  C20_broadcast_agrees_with_three_channel grayVideo grayVideo3 (fun _ => 0) (by decide)
    (by decide) (by decide) (by decide) (by decide)
    (by
      intro x y t c hx hy ht hc
      have key : ∀ x2, x2 < 2 → ∀ y2, y2 < 2 → ∀ t2, t2 < 1 → ∀ c2, c2 < 3 →
          (grayVideo3.opCall x2 y2 t2 c2).isSome = true ∧
            grayVideo3.opCall x2 y2 t2 c2 = grayVideo.opCall x2 y2 t2 0 := by decide
      obtain ⟨h1, h2⟩ := key x hx y hy t ht c hc
      obtain ⟨a, ha⟩ := Option.isSome_iff_exists.1 h1
      exact ⟨a, ha, by rw [← h2]; exact ha⟩)

/-! ### The loops of `read_transforms` -/

/-- Invariant rule for two nested counted loops: the invariant is indexed by
the number of completed inner iterations. -/
theorem nest2_inv {σ : Type} (N P : Nat) (b : Nat → Nat → σ → Option σ)
    (Q : Nat → σ → Prop)
    (step : ∀ i j s, i < N → j < P → Q (i * P + j) s →
      ∃ s2, b i j s = some s2 ∧ Q (i * P + j + 1) s2)
    (s : σ) (h0 : Q 0 s) :
    ∃ s2, forLoop N (fun i => forLoop P (fun j => b i j)) s = some s2 ∧ Q (N * P) s2 := by
  have li : ∀ i s1, i < N → Q (i * P) s1 →
      ∃ s2, forLoop P (fun j => b i j) s1 = some s2 ∧ Q ((i + 1) * P) s2 := by
    intro i s1 hi hq
    obtain ⟨s2, e, p⟩ := forLoop_inv P (fun j => b i j) (fun j => Q (i * P + j)) s1 hq
      (fun j s3 hj hp => step i j s3 hi hj hp)
    refine ⟨s2, e, ?_⟩
    have e2 : (i + 1) * P = i * P + P := by ring
    rw [e2]; exact p
  exact forLoop_inv N _ (fun i => Q (i * P)) s (by simpa using h0)
    (fun i s3 hi hp => li i s3 hi hp)

/-- A loop whose second iteration does not return normally does not either. -/
theorem forLoop_second_none {σ : Type} (n : Nat) (body : Nat → σ → Option σ) (s s1 : σ)
    (hn : 1 < n) (h0 : body 0 s = some s1) (h1 : body 1 s1 = none) :
    forLoop n body s = none := by
  obtain ⟨m, rfl⟩ : ∃ m, n = m + 2 := ⟨n - 2, by omega⟩
  show (body 0 s).bind (forFrom body (0 + 1) (m + 1)) = none
  rw [h0]
  show (body 1 s1).bind (forFrom body (0 + 1 + 1) m) = none
  rw [h1]
  rfl

/-- One iteration of the inner loop of `read_transforms` when the index fits
an `int`: the `k`-th conversion stores at `H[i*P + j]` if it succeeds. -/
theorem read_transforms_body_eq {α : Type} (fd : TransformFile α) (P i j : Nat)
    (s : ScanState α) (hfit : i * P + j < 2147483648) :
    read_transforms_body fd (P : Int) i j s =
      some (ScanState.mk
        (match fd.data s.calls with
          | some a => Function.update s.H (i * P + j) a
          | none => s.H)
        (s.calls + 1)) := by
  have e1 : (i : Int) * (P : Int) = ((i * P : Nat) : Int) := by push_cast; ring
  have hle : i * P ≤ i * P + j := Nat.le_add_right _ _
  unfold read_transforms_body
  rw [e1, int32_of_range (by omega) (by omega), Option.some_bind,
    int32_of_range (by omega) (by omega), Option.some_bind]
  have hnn : ¬ (((i * P : Nat) : Int) + (j : Int) < 0) := by omega
  have et : (((i * P : Nat) : Int) + (j : Int)).toNat = i * P + j := by omega
  rw [if_neg hnn, et]
  cases fd.data s.calls <;> rfl

/-- The loops of `read_transforms` for counts whose product fits an `int`
index: the `q`-th conversion, if it succeeds, lands at `H[q]`. -/
theorem read_transforms_loops {α : Type} (fd : TransformFile α) (p : Int) (N : Nat)
    (H : Nat → α) (hb : N * p.toNat ≤ 2147483648) :
    ∃ s, forLoop N (fun i => forLoop p.toNat (fun j => read_transforms_body fd p i j))
        (ScanState.mk H 0) = some s ∧
      ∀ q, s.H q = if q < N * p.toNat then (fd.data q).getD (H q) else H q := by
  obtain ⟨s, hs, hq⟩ := nest2_inv N p.toNat (fun i j => read_transforms_body fd p i j)
    (fun m s => s.calls = m ∧
      ∀ q, s.H q = if q < m then (fd.data q).getD (H q) else H q)
    (by
      intro i j s hi hj ⟨hc, hH⟩
      have hlt : i * p.toNat + j < N * p.toNat := mixed_lt hi hj
      have hp : p = (p.toNat : Int) := by omega
      refine ⟨ScanState.mk
        (match fd.data s.calls with
          | some a => Function.update s.H (i * p.toNat + j) a
          | none => s.H)
        (s.calls + 1), ?_, ?_, ?_⟩
      · show read_transforms_body fd p i j s = _
        conv_lhs => rw [hp]
        exact read_transforms_body_eq fd p.toNat i j s (by omega)
      · show s.calls + 1 = _
        rw [hc]
      · intro q
        show (match fd.data s.calls with
          | some a => Function.update s.H (i * p.toNat + j) a
          | none => s.H) q = _
        rw [hc]
        by_cases hqm : q = i * p.toNat + j
        · subst hqm
          rw [if_pos (by omega)]
          cases hd : fd.data (i * p.toNat + j) with
          | none =>
            show s.H _ = _
            rw [hH, if_neg (by omega)]
            rfl
          | some a =>
            show Function.update s.H _ a _ = _
            rw [Function.update_same]
            rfl
        · have hold : (match fd.data (i * p.toNat + j) with
              | some a => Function.update s.H (i * p.toNat + j) a
              | none => s.H) q = s.H q := by
            cases fd.data (i * p.toNat + j) with
            | none => rfl
            | some a => exact Function.update_noteq hqm a s.H
          rw [hold, hH]
          by_cases hql : q < i * p.toNat + j
          · rw [if_pos hql, if_pos (by omega)]
          · rw [if_neg hql, if_neg (by omega)])
    (ScanState.mk H 0) ⟨rfl, fun q => by rw [if_neg (by omega)]⟩
  exact ⟨s, hs, hq.2⟩

/-- On a file that opens with a complete header `p n w h`, `read_transforms`
is its two loops run with the counts of the header. -/
theorem read_transforms_unfold4 {α : Type} (fd : TransformFile α) (p n w h : Int)
    (hh : fd.header = [p, n, w, h]) (H : Nat → α) (nparams ntransforms nx ny : Int) :
    read_transforms (some fd) H nparams ntransforms nx ny =
      (forLoop n.toNat (fun i => forLoop p.toNat (fun j => read_transforms_body fd p i j))
        (ScanState.mk H 0)).map fun s => TransformsResult.mk s.H w h := by
  unfold read_transforms
  simp only [hh, List.length_cons, List.length_nil]
  show (if 0 < 4 then
      (forLoop n.toNat (fun i => forLoop p.toNat (fun j => read_transforms_body fd p i j))
        (ScanState.mk H 0)).map fun s => TransformsResult.mk s.H w h
    else some (TransformsResult.mk H w h)) = _
  rw [if_pos (by decide)]

/-- The result of `read_transforms` on a file that opens with a complete
header `p n w h`, when `n*p` fits an `int` index. -/
theorem read_transforms_header4 {α : Type} (fd : TransformFile α) (p n w h : Int)
    (hh : fd.header = [p, n, w, h]) (hb : n.toNat * p.toNat ≤ 2147483648)
    (H : Nat → α) (nparams ntransforms nx ny : Int) :
    ∃ out, read_transforms (some fd) H nparams ntransforms nx ny = some out ∧
      out.nx = w ∧ out.ny = h ∧
      ∀ q, out.H q = if q < n.toNat * p.toNat then (fd.data q).getD (H q) else H q := by
  obtain ⟨s, hs, hq⟩ := read_transforms_loops fd p n.toNat H hb
  refine ⟨TransformsResult.mk s.H w h, ?_, rfl, rfl, hq⟩
  unfold read_transforms
  simp only [hh, List.length_cons, List.length_nil]
  show (if 0 < 4 then
      (forLoop n.toNat (fun i => forLoop p.toNat (fun j => read_transforms_body fd p i j))
        (ScanState.mk H 0)).map fun s => TransformsResult.mk s.H w h
    else some (TransformsResult.mk H w h)) = _
  rw [if_pos (by decide), hs]
  rfl



/-- C13 (counterexample): the file with the header `2147483647 2 640 480`
followed by `p*n = 4294967294` floating-point values opens, and
`read_transforms` does not return: the first row is stored, and in the second
row the `int` index `1*2147483647 + 1` overflows. -/
theorem C13_counterexample_int_index_overflow :
    hugeFile.header = [2147483647, 2, 640, 480] ∧
    (∀ q, q < 2147483647 * 2 → hugeFile.data q = some 0) ∧
    read_transforms (some hugeFile) (fun _ => 0) 0 0 0 0 = none := by
  refine ⟨rfl, fun q hq => if_pos (by omega), ?_⟩
  have hrow0 : ∀ s0 : ScanState Nat, ∃ s1,
      forLoop 2147483647 (fun j => read_transforms_body hugeFile 2147483647 0 j) s0
        = some s1 := by
    intro s0
    obtain ⟨s1, h1, _⟩ := forLoop_inv 2147483647
      (fun j => read_transforms_body hugeFile 2147483647 0 j) (fun _ _ => True) s0 trivial
      (fun j s2 hj _ => by
        have e := read_transforms_body_eq hugeFile 2147483647 0 j s2 (by omega)
        exact ⟨_, e, trivial⟩)
    exact ⟨s1, h1⟩
  have hrow1 : ∀ s1 : ScanState Nat,
      forLoop 2147483647 (fun j => read_transforms_body hugeFile 2147483647 1 j) s1
        = none := by
    intro s1
    refine forLoop_second_none _ _ s1 _ (by decide)
      (read_transforms_body_eq hugeFile 2147483647 1 0 s1 (by decide)) ?_
    unfold read_transforms_body
    rw [int32_of_range (by decide) (by decide), Option.some_bind]
    rfl
  obtain ⟨s1, h1⟩ := hrow0 (ScanState.mk (fun _ => 0) 0)
  rw [read_transforms_unfold4 hugeFile 2147483647 2 640 480 rfl]
  have e2 : (2 : Int).toNat = 2 := rfl
  have ep : (2147483647 : Int).toNat = 2147483647 := rfl
  rw [e2, ep]
  have hloop : forLoop 2 (fun i => forLoop 2147483647
      (fun j => read_transforms_body hugeFile 2147483647 i j))
      (ScanState.mk (fun _ => 0) 0) = none :=
    forLoop_second_none 2 _ _ s1 (by decide) h1 (hrow1 s1)
  rw [hloop]
  rfl

/-- C13 (amended): for a file that opens with the header `p n w h` followed by
at least `p*n` floating-point values `v`, with `p*n` at most `2^31` (so that
every index `i*p + j` fits an `int`), `read_transforms` returns normally with
`H[i*p + j] = v[i*p + j]` for every `i < n`, `j < p`, every element of `H` from
`p*n` on unchanged, `nx = w` and `ny = h`, whatever `nparams`, `ntransforms`,
`nx`, `ny` the caller passed. -/
theorem C13_read_transforms_stores_rows {α : Type} (fd : TransformFile α)
    (p n w h : Int) (v : Nat → α) (H : Nat → α) (nparams ntransforms nx ny : Int)
    (hh : fd.header = [p, n, w, h])
    (hdata : ∀ q, q < n.toNat * p.toNat → fd.data q = some (v q))
    (hb : n.toNat * p.toNat ≤ 2147483648) :
    ∃ out, read_transforms (some fd) H nparams ntransforms nx ny = some out ∧
      (∀ i j : Nat, (i : Int) < n → (j : Int) < p →
        out.H (i * p.toNat + j) = v (i * p.toNat + j)) ∧
      (∀ q, n.toNat * p.toNat ≤ q → out.H q = H q) ∧
      out.nx = w ∧ out.ny = h := by
  obtain ⟨out, hout, hx, hy, hH⟩ :=
    read_transforms_header4 fd p n w h hh hb H nparams ntransforms nx ny
  refine ⟨out, hout, ?_, ?_, hx, hy⟩
  · intro i j hi hj
    have hlt : i * p.toNat + j < n.toNat * p.toNat :=
      mixed_lt (by omega) (by omega)
    rw [hH, if_pos hlt, hdata _ hlt]
    rfl
  · intro q hq
    rw [hH, if_neg (by omega)]

theorem C13_read_transforms_stores_rows_witness :
    ∃ out, read_transforms (some completeFile) (fun _ => 7) 5 1 0 0 = some out ∧
      (∀ i j : Nat, (i : Int) < 3 → (j : Int) < 2 →
        out.H (i * (2 : Int).toNat + j)
          = (fun q => ([1, 2, 3, 4, 9, 9][q]?).getD 0) (i * (2 : Int).toNat + j)) ∧
      (∀ q, (3 : Int).toNat * (2 : Int).toNat ≤ q → out.H q = (fun _ => 7) q) ∧
      out.nx = 640 ∧ out.ny = 480 :=
  C13_read_transforms_stores_rows completeFile 2 3 640 480
    (fun q => ([1, 2, 3, 4, 9, 9][q]?).getD 0) (fun _ => 7) 5 1 0 0 rfl
    (fun q hq => by
      have hq6 : q < 6 := hq
      interval_cases q <;> rfl)
    (by decide)

/-- C14 (counterexample): reading the file with the header `2 3 640 480` and
only the two data lines `1 2` and `3 4` into an array filled with `9` returns
normally; `H[4]` and `H[5]`, the entries of the third transform, are left
untouched, and the outcome is the one of reading the complete file whose
third line is `9 9`, so nothing tells the caller that the read fell short. -/
theorem C14_counterexample_short_file_silent :
    shortFile.header = [2, 3, 640, 480] ∧
    shortFile.data 3 = some 4 ∧ (∀ k, 4 ≤ k → shortFile.data k = none) ∧
    (∃ out, read_transforms (some shortFile) (fun _ => 9) 2 3 0 0 = some out ∧
      out.H 0 = 1 ∧ out.H 1 = 2 ∧ out.H 2 = 3 ∧ out.H 3 = 4 ∧
      out.H 4 = 9 ∧ out.H 5 = 9 ∧ out.nx = 640 ∧ out.ny = 480 ∧
      ∃ out2, read_transforms (some completeFile) (fun _ => 9) 2 3 0 0 = some out2 ∧
        out2.nx = out.nx ∧ out2.ny = out.ny ∧ ∀ q, out2.H q = out.H q) := by
  have hnone : ∀ k, 4 ≤ k → shortFile.data k = none := by
    intro k hk
    show [1, 2, 3, 4][k]? = none
    exact List.getElem?_eq_none (by simpa using hk)
  obtain ⟨out, hout, hx, hy, hH⟩ :=
    read_transforms_header4 shortFile 2 3 640 480 rfl (by decide) (fun _ => 9) 2 3 0 0
  obtain ⟨out2, hout2, hx2, hy2, hH2⟩ :=
    read_transforms_header4 completeFile 2 3 640 480 rfl (by decide) (fun _ => 9) 2 3 0 0
  have hall : ∀ q, out2.H q = out.H q := by
    intro q
    rw [hH, hH2]
    by_cases hq : q < (3 : Int).toNat * (2 : Int).toNat
    · rw [if_pos hq, if_pos hq]
      have hq6 : q < 6 := hq
      interval_cases q <;> rfl
    · rw [if_neg hq, if_neg hq]
  refine ⟨rfl, rfl, hnone, out, hout, ?_, ?_, ?_, ?_, ?_, ?_, hx, hy, out2, hout2,
    by rw [hx, hx2], by rw [hy, hy2], hall⟩
  all_goals rw [hH]; rfl

/-- C14 (amended): for a file that opens with the header `p 3 w h`
(`3*p <= 2^31`) and only two data lines, that is `2*p` values `v` and then
the end of the file, `read_transforms` returns normally and reports
nothing: `H[q] = v[q]` for `q < 2*p`, every other element of `H`, the entries
of the third transform included, is left untouched, `nx = w`, `ny = h`. -/
theorem C14_short_file_leaves_third_untouched {α : Type} (fd : TransformFile α)
    (p w h : Int) (v : Nat → α) (H : Nat → α) (nparams ntransforms nx ny : Int)
    (hh : fd.header = [p, 3, w, h]) (hb : 3 * p ≤ 2147483648)
    (hdata : ∀ q, q < 2 * p.toNat → fd.data q = some (v q))
    (heof : ∀ q, 2 * p.toNat ≤ q → fd.data q = none) :
    ∃ out, read_transforms (some fd) H nparams ntransforms nx ny = some out ∧
      (∀ q, q < 2 * p.toNat → out.H q = v q) ∧
      (∀ q, 2 * p.toNat ≤ q → out.H q = H q) ∧
      out.nx = w ∧ out.ny = h := by
  have e3 : (3 : Int).toNat = 3 := rfl
  obtain ⟨out, hout, hx, hy, hH⟩ :=
    read_transforms_header4 fd p 3 w h hh (by rw [e3]; omega) H nparams ntransforms nx ny
  rw [e3] at hH
  refine ⟨out, hout, ?_, ?_, hx, hy⟩
  · intro q hq
    rw [hH, if_pos (by omega), hdata q hq]
    rfl
  · intro q hq
    rw [hH, heof q hq]
    split_ifs <;> rfl

theorem C14_short_file_leaves_third_untouched_witness :
    ∃ out, read_transforms (some shortFile) (fun _ => 9) 2 3 0 0 = some out ∧
      (∀ q, q < 2 * (2 : Int).toNat → out.H q = (fun q => ([1, 2, 3, 4][q]?).getD 0) q) ∧
      (∀ q, 2 * (2 : Int).toNat ≤ q → out.H q = (fun _ => 9) q) ∧
      out.nx = 640 ∧ out.ny = 480 :=
  C14_short_file_leaves_third_untouched shortFile 2 640 480
    (fun q => ([1, 2, 3, 4][q]?).getD 0) (fun _ => 9) 2 3 0 0 rfl (by decide)
    (fun q hq => by
      have hq4 : q < 4 := hq
      interval_cases q <;> rfl)
    (fun q hq => by
      have hq4 : 4 ≤ q := hq
      show [1, 2, 3, 4][q]? = none
      exact List.getElem?_eq_none (by simpa using hq4))

/-- C16: when the file cannot be opened, `read_transforms` returns normally
with every element of `H` and the values of `nx` and `ny` as before the call;
the outcome is the one of reading an empty file that opens, so no failure is
reported. -/
theorem C16_unopened_file_is_silent_noop {α : Type} (H : Nat → α)
    (nparams ntransforms nx ny : Int) :
    (∃ out, read_transforms (none : Option (TransformFile α)) H nparams ntransforms nx ny
        = some out ∧ (∀ q, out.H q = H q) ∧ out.nx = nx ∧ out.ny = ny) ∧
    read_transforms (none : Option (TransformFile α)) H nparams ntransforms nx ny
      = read_transforms (some (TransformFile.mk [] (fun _ => none))) H nparams ntransforms
          nx ny :=
  ⟨⟨TransformsResult.mk H nx ny, rfl, fun _ => rfl, rfl, rfl⟩, rfl⟩

/-! ### The loop of `save_transforms` -/

/-- One iteration of the loop of `save_transforms` when the offset
`i*nparams` fits an `int`: the line of the matrix of block `i` is appended. -/
theorem save_transforms_body_eq {α : Type} (fmt : α → String)
    (params2matrix : (Nat → α) → Int → Nat → α) (H : Nat → α) (P i : Nat) (out : String)
    (hfit : i * P < 2147483648) :
    save_transforms_body fmt params2matrix H (P : Int) i out =
      some (out ++ transformLine fmt (params2matrix (fun q => H (i * P + q)) (P : Int))) := by
  have e1 : (i : Int) * (P : Int) = ((i * P : Nat) : Int) := by push_cast; ring
  have hnn : ¬ (((i * P : Nat) : Int) < 0) := by omega
  have et : (((i * P : Nat) : Int)).toNat = i * P := by omega
  unfold save_transforms_body
  rw [e1, int32_of_range (by omega) (by omega), Option.some_bind, if_neg hnn, et]
  show some (out ++ _ ++ " " ++ _ ++ " " ++ _ ++ " " ++ _ ++ " " ++ _ ++ " " ++ _ ++ " "
    ++ _ ++ " " ++ _ ++ " " ++ _ ++ " " ++ "\n") = _
  unfold transformLine
  simp only [String.append_assoc]

/-- The loop of `save_transforms`: the text is the concatenation of the lines
of the blocks `0, ..., N-1`. -/
theorem save_transforms_loop {α : Type} (fmt : α → String)
    (params2matrix : (Nat → α) → Int → Nat → α) (H : Nat → α) (P N : Nat)
    (hfit : ∀ i, i < N → i * P < 2147483648) :
    forLoop N (save_transforms_body fmt params2matrix H (P : Int)) "" =
      some (linesUpTo
        (fun i => transformLine fmt (params2matrix (fun q => H (i * P + q)) (P : Int))) N) := by
  obtain ⟨out, hout, hq⟩ := forLoop_inv N (save_transforms_body fmt params2matrix H (P : Int))
    (fun i out => out = linesUpTo
      (fun i => transformLine fmt (params2matrix (fun q => H (i * P + q)) (P : Int))) i)
    "" rfl
    (fun i out hi hp => by
      refine ⟨_, save_transforms_body_eq fmt params2matrix H P i out (hfit i hi), ?_⟩
      show _ = linesUpTo _ i ++ _
      rw [hp])
  rw [hout, hq]

/-- C15 (counterexample): with two transforms, `nparams = 6` and the identity
mapping, `save_transforms` writes two lines that each end with a blank before
the newline, not the two lines of the scenario; and with `nparams = 2^30` and
three transforms the offset `2*nparams` overflows `int`. -/
theorem C15_counterexample_trailing_blank :
    save_transforms true fmt15 identityMatrix (fun _ => 0) 6 2 640 480
      = some (identityLineText ++ " \n" ++ identityLineText ++ " \n") ∧
    save_transforms true fmt15 identityMatrix (fun _ => 0) 6 2 640 480
      ≠ some (identityLineText ++ "\n" ++ identityLineText ++ "\n") ∧
    save_transforms true fmt15 identityMatrix (fun _ => 0) 1073741824 3 640 480 = none := by
  set_option maxRecDepth 100000 in decide

/-- C15 (amended): for `nparams, ntransforms >= 0` with every offset
`i*nparams`, `i < ntransforms`, fitting an `int`, when the file opens
`save_transforms` writes exactly the lines of the blocks `0 .. ntransforms-1`
in order and nothing else (no header, `nx` and `ny` are not written); line `i`
consists of the 9 entries, in order 0..8, of the matrix `params2matrix` gives
for the block starting at `H[i*nparams]`, each printed by the `%.15f`
conversion and followed by one blank, then the newline. -/
theorem C15_save_transforms_lines {α : Type} (fmt : α → String)
    (params2matrix : (Nat → α) → Int → Nat → α) (H : Nat → α)
    (nparams ntransforms nx ny : Int)
    (hp : 0 ≤ nparams) (hn : 0 ≤ ntransforms)
    (hb : (ntransforms.toNat - 1) * nparams.toNat < 2147483648) :
    save_transforms true fmt params2matrix H nparams ntransforms nx ny =
      some (linesUpTo
        (fun i => transformLine fmt
          (params2matrix (fun q => H (i * nparams.toNat + q)) nparams))
        ntransforms.toNat) ∧
    (∀ m : Nat → α, transformLine fmt m =
      fmt (m 0) ++ " " ++ fmt (m 1) ++ " " ++ fmt (m 2) ++ " " ++ fmt (m 3) ++ " " ++
      fmt (m 4) ++ " " ++ fmt (m 5) ++ " " ++ fmt (m 6) ++ " " ++ fmt (m 7) ++ " " ++
      fmt (m 8) ++ " " ++ "\n") := by
  have _ := hn
  have hpe : nparams = (nparams.toNat : Int) := by omega
  refine ⟨?_, fun _ => rfl⟩
  have hfit : ∀ i, i < ntransforms.toNat → i * nparams.toNat < 2147483648 := by
    intro i hi
    have hle : i * nparams.toNat ≤ (ntransforms.toNat - 1) * nparams.toNat :=
      Nat.mul_le_mul_right _ (by omega)
    omega
  have hl := save_transforms_loop fmt params2matrix H nparams.toNat ntransforms.toNat hfit
  rw [← hpe] at hl
  unfold save_transforms
  rw [if_pos rfl]
  exact hl

theorem C15_save_transforms_lines_witness :
    save_transforms true fmt15 identityMatrix (fun _ => 0) 6 2 640 480 =
      some (linesUpTo
        (fun i => transformLine fmt15
          (identityMatrix (fun q => (fun _ => 0) (i * (6 : Int).toNat + q)) 6))
        (2 : Int).toNat) ∧
    (∀ m : Nat → Nat, transformLine fmt15 m =
      fmt15 (m 0) ++ " " ++ fmt15 (m 1) ++ " " ++ fmt15 (m 2) ++ " " ++ fmt15 (m 3) ++ " " ++
      fmt15 (m 4) ++ " " ++ fmt15 (m 5) ++ " " ++ fmt15 (m 6) ++ " " ++ fmt15 (m 7) ++ " " ++
      fmt15 (m 8) ++ " " ++ "\n") :=
  C15_save_transforms_lines fmt15 identityMatrix (fun _ => 0) 6 2 640 480 (by decide)
    (by decide) (by decide)

end VideoT
